import Mathlib

/-!
Verification of the sealed-away interpreter core (Script / Scene / Stack /
Serializer) against its specification.  The definitions below are a shallow
embedding of the TypeScript sources:

* `src/engine/core/stack.ts`  — execution stack (frames, peek/pull/patch/dump);
* `src/engine/core/script.ts` — interpreter (save/load/step/jump/emit/subscribe);
* `src/engine/core/scene.ts`  — scene dialect (page command, yield guard);
* `src/engine/utils/serialize.ts` — tagged JSON serializer;
* `src/engine/utils/diff.ts`  — array diff (the underlying `diffArrays` comes
  from the third-party `diff` npm package and is modelled from the spec).

JavaScript numbers are modelled as `Int` (no claim depends on floats or NaN),
JavaScript objects as ordered association lists, and `undefined` results as
`Option`.  Host-language evaluation (`renderExpression`, templates, the `eval`
command, lodash `camelCase`) is abstracted into an oracle record, since those
run arbitrary JavaScript.
-/

namespace SealedAway

/-- Script node / runtime value: a JSON value extended with the two tagged
containers `ScriptExp` and `ScriptFmt` (see `ScriptNode` in script.ts). -/
inductive Value where
  | null : Value
  | bool (b : Bool) : Value
  | num (n : Int) : Value
  | str (s : String) : Value
  | list (xs : List Value) : Value
  | map (kvs : List (String × Value)) : Value
  | exp (e : String) : Value
  | fmt (f : String) : Value
deriving Repr

mutual

/-- Structural (deep) equality on values, standing in for lodash `isEqual`. -/
def Value.decEq : (a b : Value) → Decidable (a = b)
  | .null, .null => .isTrue rfl
  | .bool a, .bool b =>
    if h : a = b then .isTrue (h ▸ rfl)
    else .isFalse fun hh => h (by injection hh)
  | .num a, .num b =>
    if h : a = b then .isTrue (h ▸ rfl)
    else .isFalse fun hh => h (by injection hh)
  | .str a, .str b =>
    if h : a = b then .isTrue (h ▸ rfl)
    else .isFalse fun hh => h (by injection hh)
  | .exp a, .exp b =>
    if h : a = b then .isTrue (h ▸ rfl)
    else .isFalse fun hh => h (by injection hh)
  | .fmt a, .fmt b =>
    if h : a = b then .isTrue (h ▸ rfl)
    else .isFalse fun hh => h (by injection hh)
  | .list xs, .list ys =>
    match Value.decEqList xs ys with
    | .isTrue h => .isTrue (h ▸ rfl)
    | .isFalse h => .isFalse fun hh => h (by injection hh)
  | .map xs, .map ys =>
    match Value.decEqKvs xs ys with
    | .isTrue h => .isTrue (h ▸ rfl)
    | .isFalse h => .isFalse fun hh => h (by injection hh)
  | .null, .bool _ => .isFalse nofun
  | .null, .num _ => .isFalse nofun
  | .null, .str _ => .isFalse nofun
  | .null, .list _ => .isFalse nofun
  | .null, .map _ => .isFalse nofun
  | .null, .exp _ => .isFalse nofun
  | .null, .fmt _ => .isFalse nofun
  | .bool _, .null => .isFalse nofun
  | .bool _, .num _ => .isFalse nofun
  | .bool _, .str _ => .isFalse nofun
  | .bool _, .list _ => .isFalse nofun
  | .bool _, .map _ => .isFalse nofun
  | .bool _, .exp _ => .isFalse nofun
  | .bool _, .fmt _ => .isFalse nofun
  | .num _, .null => .isFalse nofun
  | .num _, .bool _ => .isFalse nofun
  | .num _, .str _ => .isFalse nofun
  | .num _, .list _ => .isFalse nofun
  | .num _, .map _ => .isFalse nofun
  | .num _, .exp _ => .isFalse nofun
  | .num _, .fmt _ => .isFalse nofun
  | .str _, .null => .isFalse nofun
  | .str _, .bool _ => .isFalse nofun
  | .str _, .num _ => .isFalse nofun
  | .str _, .list _ => .isFalse nofun
  | .str _, .map _ => .isFalse nofun
  | .str _, .exp _ => .isFalse nofun
  | .str _, .fmt _ => .isFalse nofun
  | .list _, .null => .isFalse nofun
  | .list _, .bool _ => .isFalse nofun
  | .list _, .num _ => .isFalse nofun
  | .list _, .str _ => .isFalse nofun
  | .list _, .map _ => .isFalse nofun
  | .list _, .exp _ => .isFalse nofun
  | .list _, .fmt _ => .isFalse nofun
  | .map _, .null => .isFalse nofun
  | .map _, .bool _ => .isFalse nofun
  | .map _, .num _ => .isFalse nofun
  | .map _, .str _ => .isFalse nofun
  | .map _, .list _ => .isFalse nofun
  | .map _, .exp _ => .isFalse nofun
  | .map _, .fmt _ => .isFalse nofun
  | .exp _, .null => .isFalse nofun
  | .exp _, .bool _ => .isFalse nofun
  | .exp _, .num _ => .isFalse nofun
  | .exp _, .str _ => .isFalse nofun
  | .exp _, .list _ => .isFalse nofun
  | .exp _, .map _ => .isFalse nofun
  | .exp _, .fmt _ => .isFalse nofun
  | .fmt _, .null => .isFalse nofun
  | .fmt _, .bool _ => .isFalse nofun
  | .fmt _, .num _ => .isFalse nofun
  | .fmt _, .str _ => .isFalse nofun
  | .fmt _, .list _ => .isFalse nofun
  | .fmt _, .map _ => .isFalse nofun
  | .fmt _, .exp _ => .isFalse nofun

/-- Decidable equality on value lists. -/
def Value.decEqList : (xs ys : List Value) → Decidable (xs = ys)
  | [], [] => .isTrue rfl
  | [], _ :: _ => .isFalse nofun
  | _ :: _, [] => .isFalse nofun
  | x :: xs, y :: ys =>
    match Value.decEq x y with
    | .isFalse h => .isFalse fun hh => h (by injection hh)
    | .isTrue h1 =>
      match Value.decEqList xs ys with
      | .isTrue h2 => .isTrue (h1 ▸ h2 ▸ rfl)
      | .isFalse h => .isFalse fun hh => h (by injection hh)

/-- Decidable equality on object entry lists. -/
def Value.decEqKvs : (xs ys : List (String × Value)) → Decidable (xs = ys)
  | [], [] => .isTrue rfl
  | [], _ :: _ => .isFalse nofun
  | _ :: _, [] => .isFalse nofun
  | (k, x) :: xs, (k', y) :: ys =>
    if hk : k = k' then
      match Value.decEq x y with
      | .isFalse h => .isFalse fun hh => by
          injection hh with hp _
          exact h (congrArg Prod.snd hp)
      | .isTrue hv =>
        match Value.decEqKvs xs ys with
        | .isTrue h2 => .isTrue (hk ▸ hv ▸ h2 ▸ rfl)
        | .isFalse h => .isFalse fun hh => h (by injection hh)
    else
      .isFalse fun hh => by
        injection hh with hp _
        exact hk (congrArg Prod.fst hp)

end

instance : DecidableEq Value := Value.decEq

/-- JavaScript falsiness (`!value`): null, false, 0 and the empty string are
falsy; arrays, objects and the tagged containers are always truthy. -/
def Value.falsy : Value → Bool
  | .null => true
  | .bool b => !b
  | .num n => n == 0
  | .str s => s == ""
  | _ => false

/-- JavaScript truthiness. -/
def Value.truthy (v : Value) : Bool := !v.falsy

/-- Truthiness of a possibly-`undefined` value (`undefined` is falsy). -/
def truthyOpt : Option Value → Bool
  | none => false
  | some v => v.truthy

/-- Is this value an array? (`Array.isArray`). -/
def Value.isList : Value → Bool
  | .list _ => true
  | _ => false

/-- JavaScript property read `obj[key]`: `some` for own entries of an object,
`none` (`undefined`) otherwise. -/
def Value.getKey : Value → String → Option Value
  | .map kvs, k => kvs.lookup k
  | _, _ => none

/-- JavaScript property write `obj[key] = v`: replaces the first binding of an
existing key in place, otherwise appends the key (insertion order). -/
def mapSet (kvs : List (String × Value)) (k : String) (v : Value) :
    List (String × Value) :=
  match kvs with
  | [] => [(k, v)]
  | (k', v') :: rest =>
    if k' = k then (k', v) :: rest else (k', v') :: mapSet rest k v

/-! ## Array diff (utils/diff.ts, §4.4 of the spec)

`diffArray` in utils/diff.ts flattens the change groups produced by
`diffArrays` of the third-party `diff` npm package (not part of this
repository).  Modelled from the spec: any diff with minimal edit distance is
acceptable; changes restricted to kept∪removed list the source in order and
changes restricted to kept∪added list the update in order; the comparator is
structural deep equality.  The definition below computes such a minimal diff
by the textbook insert/delete edit-distance recursion, emitting removals
before insertions (as `diffArrays` does). -/

/-- One flattened diff change (`DiffChange` in utils/diff.ts; the derived
`indexSource`/`indexUpdate` counters are not carried since `Stack.patch` only
inspects the `added`/`removed` flags). -/
inductive DiffChange where
  | kept (value : Value) : DiffChange
  | added (value : Value) : DiffChange
  | removed (value : Value) : DiffChange
deriving DecidableEq, Repr

/-- Number of non-kept changes (the edit cost of a change list). -/
def diffCost (cs : List DiffChange) : Nat :=
  cs.countP fun c => match c with | .kept _ => false | _ => true

/-- The edit-distance recursion behind `diffArray`, structural on a fuel
argument so that it evaluates inside the kernel; the fuel is always at least
the sum of the list lengths, making the fuel-exhausted fallback
unreachable. -/
def diffGo : Nat → List Value → List Value → List DiffChange
  | _, [], ys => ys.map .added
  | 0, xs, ys => xs.map .removed ++ ys.map .added
  | fuel + 1, x :: xs, [] => .removed x :: diffGo fuel xs []
  | fuel + 1, x :: xs, y :: ys =>
    if x = y then .kept x :: diffGo fuel xs ys
    else
      let d1 := DiffChange.removed x :: diffGo fuel xs (y :: ys)
      let d2 := DiffChange.added y :: diffGo fuel (x :: xs) ys
      if diffCost d1 ≤ diffCost d2 then d1 else d2

/-- Minimal insert/delete diff between two value lists (spec §4.4). -/
def diffArray (xs ys : List Value) : List DiffChange :=
  diffGo (xs.length + ys.length) xs ys

/-- The number of source-side changes (kept + removed). -/
def countSrc (cs : List DiffChange) : Nat :=
  cs.countP fun c => match c with | .added _ => false | _ => true

/-- The number of update-side changes (kept + added). -/
def countUpd (cs : List DiffChange) : Nat :=
  cs.countP fun c => match c with | .removed _ => false | _ => true

/-- Reconstruction of the update from a change list (kept ∪ added). -/
def applyUpd (cs : List DiffChange) : List Value :=
  cs.filterMap fun c => match c with
    | .kept v => some v
    | .added v => some v
    | .removed _ => none

/-- Reconstruction of the source from a change list (kept ∪ removed). -/
def applySrc (cs : List DiffChange) : List Value :=
  cs.filterMap fun c => match c with
    | .kept v => some v
    | .added _ => none
    | .removed v => some v

theorem diffGo_self : (fuel : Nat) → (xs : List Value) → xs.length ≤ fuel →
    diffGo fuel xs xs = xs.map .kept
  | fuel, [], _ => by cases fuel <;> rfl
  | 0, x :: xs, h => by simp at h
  | fuel + 1, x :: xs, h => by
    have ih := diffGo_self fuel xs (by simpa using h)
    simp [diffGo, ih]

theorem diffArray_self (xs : List Value) :
    diffArray xs xs = xs.map .kept := by
  unfold diffArray
  exact diffGo_self _ xs (by omega)

theorem applyUpd_added (ys : List Value) :
    applyUpd (ys.map .added) = ys := by
  induction ys with
  | nil => rfl
  | cons y ys ih => simp [applyUpd, List.filterMap_cons] at ih ⊢; exact ih

theorem applyUpd_diffGo : (fuel : Nat) → (xs ys : List Value) →
    xs.length + ys.length ≤ fuel → applyUpd (diffGo fuel xs ys) = ys
  | fuel, [], ys, _ => by
    cases fuel <;> exact applyUpd_added ys
  | 0, x :: xs, ys, h => by simp at h
  | fuel + 1, x :: xs, [], h => by
    have ih := applyUpd_diffGo fuel xs [] (by simp at h ⊢; omega)
    simp [diffGo, applyUpd, List.filterMap_cons] at ih ⊢
    exact ih
  | fuel + 1, x :: xs, y :: ys, h => by
    simp only [List.length_cons] at h
    by_cases hxy : x = y
    · have ih := applyUpd_diffGo fuel xs ys (by omega)
      simp [diffGo, hxy, applyUpd, List.filterMap_cons] at ih ⊢
      exact ih
    · have ih1 := applyUpd_diffGo fuel xs (y :: ys) (by simp; omega)
      have ih2 := applyUpd_diffGo fuel (x :: xs) ys (by simp; omega)
      by_cases hle :
          diffCost (DiffChange.removed x :: diffGo fuel xs (y :: ys)) ≤
            diffCost (DiffChange.added y :: diffGo fuel (x :: xs) ys)
      · simp only [diffGo, if_neg hxy, if_pos hle]
        simp [applyUpd, List.filterMap_cons] at ih1 ⊢
        exact ih1
      · simp only [diffGo, if_neg hxy, if_neg hle]
        simp [applyUpd, List.filterMap_cons] at ih2 ⊢
        exact ih2

theorem applyUpd_diffArray (xs ys : List Value) :
    applyUpd (diffArray xs ys) = ys :=
  applyUpd_diffGo _ xs ys (by omega)

theorem applySrc_added (ys : List Value) :
    applySrc (ys.map .added) = [] := by
  induction ys with
  | nil => rfl
  | cons y ys ih => simp [applySrc, List.filterMap_cons, ih]

theorem applySrc_diffGo : (fuel : Nat) → (xs ys : List Value) →
    xs.length + ys.length ≤ fuel → applySrc (diffGo fuel xs ys) = xs
  | fuel, [], ys, _ => by
    cases fuel <;> exact applySrc_added ys
  | 0, x :: xs, ys, h => by simp at h
  | fuel + 1, x :: xs, [], h => by
    have ih := applySrc_diffGo fuel xs [] (by simp at h ⊢; omega)
    simp [diffGo, applySrc, List.filterMap_cons] at ih ⊢
    exact ih
  | fuel + 1, x :: xs, y :: ys, h => by
    simp only [List.length_cons] at h
    by_cases hxy : x = y
    · have ih := applySrc_diffGo fuel xs ys (by omega)
      simp [diffGo, hxy, applySrc, List.filterMap_cons] at ih ⊢
      exact ih
    · have ih1 := applySrc_diffGo fuel xs (y :: ys) (by simp; omega)
      have ih2 := applySrc_diffGo fuel (x :: xs) ys (by simp; omega)
      by_cases hle :
          diffCost (DiffChange.removed x :: diffGo fuel xs (y :: ys)) ≤
            diffCost (DiffChange.added y :: diffGo fuel (x :: xs) ys)
      · simp only [diffGo, if_neg hxy, if_pos hle]
        simp [applySrc, List.filterMap_cons] at ih1 ⊢
        exact ih1
      · simp only [diffGo, if_neg hxy, if_neg hle]
        simp [applySrc, List.filterMap_cons] at ih2 ⊢
        exact ih2

theorem applySrc_diffArray (xs ys : List Value) :
    applySrc (diffArray xs ys) = xs :=
  applySrc_diffGo _ xs ys (by omega)

theorem countSrc_eq_length_applySrc (cs : List DiffChange) :
    countSrc cs = (applySrc cs).length := by
  induction cs with
  | nil => rfl
  | cons c cs ih =>
    cases c <;> simp [countSrc, applySrc, List.filterMap_cons, List.countP_cons] at ih ⊢ <;>
      omega

theorem countUpd_eq_length_applyUpd (cs : List DiffChange) :
    countUpd cs = (applyUpd cs).length := by
  induction cs with
  | nil => rfl
  | cons c cs ih =>
    cases c <;> simp [countUpd, applyUpd, List.filterMap_cons, List.countP_cons] at ih ⊢ <;>
      omega

theorem countSrc_diffArray (xs ys : List Value) :
    countSrc (diffArray xs ys) = xs.length := by
  rw [countSrc_eq_length_applySrc, applySrc_diffArray]

theorem countUpd_diffArray (xs ys : List Value) :
    countUpd (diffArray xs ys) = ys.length := by
  rw [countUpd_eq_length_applyUpd, applyUpd_diffArray]

/-! ## Execution stack (core/stack.ts) -/

/-- Execution stack frame (`StackFrame<T>`): a code list plus a program
counter.  The counter is an `Int` because JavaScript numbers are signed and
`Stack.patch` can in fact drive it negative. -/
structure StackFrame where
  programCounter : Int
  code : List Value
deriving DecidableEq, Repr

/-- Execution stack slice (`StackSlice<T>`): the instruction index and value
returned by peek/pull.  (The source also returns a reference to the live
frame object; the state components of the operations below carry that
information instead.) -/
structure StackSlice where
  index : Int
  value : Value
deriving DecidableEq, Repr

/-- JavaScript array indexing `code[pc]` (negative or out-of-range indices
read as `undefined`). -/
def codeAt (code : List Value) (pc : Int) : Option Value :=
  if pc < 0 then none else code[pc.toNat]?

namespace Stack

/-- The stack itself: list of frames, head = top (`unshift` pushes at 0). -/
abbrev St := List StackFrame

/-- `Stack.push`: new frame with `programCounter = 0` on top; returns the
created frame and the new stack. -/
def push (code : List Value) (st : St) : StackFrame × St :=
  let frame : StackFrame := { programCounter := 0, code := code }
  (frame, frame :: st)

/-- `Stack.peek`: the current instruction of the top frame, without advancing.
Mirrors the source's `if (!frame || !value) return null` — `none` when there
is no frame, when the counter is out of range, and also when the value at the
counter is *falsy*. -/
def peek : St → Option StackSlice
  | [] => none
  | f :: _ =>
    match codeAt f.code f.programCounter with
    | none => none
    | some v => if v.falsy then none else some ⟨f.programCounter, v⟩

/-- `Stack.pull`: peek, then advance the counter; the frame is shifted off
when the incremented counter equals the code length.  Returns the slice and
the stack after the mutation (`none` leaves the stack untouched). -/
def pull : St → Option (StackSlice × St)
  | [] => none
  | f :: rest =>
    match peek (f :: rest) with
    | none => none
    | some slice =>
      let f' : StackFrame := { f with programCounter := f.programCounter + 1 }
      if f'.programCounter = f.code.length then some (slice, rest)
      else some (slice, f' :: rest)

/-- `Stack.isEmpty`: no frame yields a value. -/
def isEmpty (st : St) : Bool := (peek st).isNone

/-- `Stack.dump`: `return this.stack.reverse()` — `Array.prototype.reverse`
reverses **in place**, so the call returns the reversed frame list *and*
leaves the live stack reversed.  The first component is the returned list,
the second the stack's state after the call. -/
def dump (st : St) : List StackFrame × St := (st.reverse, st.reverse)

/-- `Stack.clear`. -/
def clear (_ : St) : St := []

/-- The patch loop of `Stack.patch`: walks the diff maintaining `index`,
breaking as soon as `index >= programCounter`; removals decrement both the
counter and the index, insertions increment both, kept changes advance only
the index. -/
def patchLoop : List DiffChange → Int → Int → Int
  | [], _, pc => pc
  | c :: rest, index, pc =>
    if pc ≤ index then pc
    else
      match c with
      | .removed _ => patchLoop rest (index - 1) (pc - 1)
      | .added _ => patchLoop rest (index + 1) (pc + 1)
      | .kept _ => patchLoop rest (index + 1) pc

/-- `Stack.patch` (static): diff the frame's code against the new code, shift
the program counter accordingly, and install the new code. -/
def patch (f : StackFrame) (code : List Value) : StackFrame :=
  { programCounter := patchLoop (diffArray f.code code) 0 f.programCounter,
    code := code }

/-- A run of kept changes long enough to cover the gap `pc - index` leaves the
counter unchanged (the loop breaks once `index` catches up with `pc`). -/
theorem patchLoop_kept_run (ks : List Value) (rest : List DiffChange) :
    ∀ (index pc : Int), pc - index ≤ ks.length →
      patchLoop (ks.map .kept ++ rest) index pc = pc := by
  induction ks with
  | nil =>
    intro index pc hle
    simp only [List.map_nil, List.nil_append]
    cases rest with
    | nil => rfl
    | cons c rest =>
      simp only [List.length_nil, Nat.cast_zero] at hle
      have : pc ≤ index := by omega
      simp [patchLoop, this]
  | cons k ks ih =>
    intro index pc hle
    by_cases hbr : pc ≤ index
    · simp [patchLoop, hbr]
    · simp only [List.map_cons, List.cons_append, patchLoop, if_neg hbr]
      apply ih
      simp at hle
      omega

/-- All-kept diffs leave the counter unchanged. -/
theorem patchLoop_all_kept (ks : List Value) (index pc : Int) :
    patchLoop (ks.map .kept) index pc = pc := by
  induction ks generalizing index with
  | nil => rfl
  | cons k ks ih =>
    by_cases hbr : pc ≤ index
    · simp [patchLoop, hbr]
    · simp only [List.map_cons, patchLoop, if_neg hbr]
      exact ih _

/-- Patching a frame with (structurally) identical code is the identity on the
counter. -/
theorem patch_self (f : StackFrame) : patch f f.code = f := by
  simp [patch, diffArray_self, patchLoop_all_kept]

/-- Upper bound for the patch loop: the result never exceeds
`max (index + countUpd cs) (pc - countSrc cs + countUpd cs)`. -/
theorem patchLoop_le (cs : List DiffChange) :
    ∀ (index pc : Int),
      patchLoop cs index pc ≤
        max (index + countUpd cs) (pc - countSrc cs + countUpd cs) := by
  induction cs with
  | nil =>
    intro index pc
    simp only [patchLoop, countSrc, countUpd, List.countP_nil, Nat.cast_zero]
    omega
  | cons c cs ih =>
    intro index pc
    by_cases hbr : pc ≤ index
    · have h0 : (0 : Int) ≤ countUpd (c :: cs) := by positivity
      simp [patchLoop, hbr]
      omega
    · cases c with
      | removed v =>
        have h := ih (index - 1) (pc - 1)
        simp only [patchLoop, if_neg hbr]
        simp [countSrc, countUpd, List.countP_cons] at h ⊢
        omega
      | added v =>
        have h := ih (index + 1) (pc + 1)
        simp only [patchLoop, if_neg hbr]
        simp [countSrc, countUpd, List.countP_cons] at h ⊢
        omega
      | kept v =>
        have h := ih (index + 1) pc
        simp only [patchLoop, if_neg hbr]
        simp [countSrc, countUpd, List.countP_cons] at h ⊢
        omega

/-- `Stack.patch` preserves the upper program-counter bound: starting from a
counter within the old code, the patched counter is at most the new code
length. -/
theorem patch_le (f : StackFrame) (code : List Value)
    (h : f.programCounter ≤ f.code.length) :
    (patch f code).programCounter ≤ code.length := by
  have hle := patchLoop_le (diffArray f.code code) 0 f.programCounter
  rw [countSrc_diffArray, countUpd_diffArray] at hle
  simp [patch]
  omega

end Stack

/-! ## Node paths (lodash `get` / the `traverse` package) -/

/-- One component of a script node path (`ScriptPath = Array<string|number>`).
Numeric components are `Int` because `parseInt` can produce negative
numbers. -/
inductive Seg where
  | key (s : String) : Seg
  | idx (n : Int) : Seg
deriving DecidableEq, Repr

/-- Canonical array-index reading of a string key, as used by JavaScript
property access on arrays: `arr["1"]` is `arr[1]`, while `arr["01"]` is
`undefined`. -/
def canonIdx (s : String) : Option Nat :=
  match s.toNat? with
  | some n => if toString n = s then some n else none
  | none => none

/-- JavaScript `parseInt` (radix 10): skip leading whitespace, optional sign,
then a maximal digit run; `none` when no digit follows (hexadecimal prefixes
are not modelled — no script key uses them). -/
def jsParseInt (s : String) : Option Int :=
  let t := s.toList.dropWhile fun c => c = ' ' ∨ c = '\t' ∨ c = '\n' ∨ c = '\r'
  let signAndRest : Int × List Char :=
    match t with
    | '-' :: r => (-1, r)
    | '+' :: r => (1, r)
    | r => (1, r)
  let digits := signAndRest.2.takeWhile Char.isDigit
  if digits.isEmpty then none
  else
    some (signAndRest.1 *
      (digits.foldl (fun a c => a * 10 + (c.toNat - '0'.toNat)) 0 : Nat))

/-- One step of lodash `get`: objects are read by key (numbers coerce to their
decimal string), arrays by index (string keys only when they are canonical
numerals). -/
def getSeg : Value → Seg → Option Value
  | .list xs, .idx n => if n < 0 then none else xs.get? n.toNat
  | .map kvs, .idx n => kvs.lookup (toString n)
  | .map kvs, .key s => kvs.lookup s
  | .list xs, .key s =>
    match canonIdx s with
    | some n => xs.get? n
    | none => none
  | _, _ => none

/-- lodash `get` over a whole path. -/
def getPath : Value → List Seg → Option Value
  | v, [] => some v
  | v, sg :: rest =>
    match getSeg v sg with
    | some v' => getPath v' rest
    | none => none

mutual

/-- All node paths of a value in pre-order, root first (the `traverse`
package's `paths()`). -/
def Value.paths : Value → List (List Seg)
  | .list xs => [] :: Value.pathsList 0 xs
  | .map kvs => [] :: Value.pathsKvs kvs
  | _ => [[]]

/-- Paths of the elements of a list node, starting at index `i`. -/
def Value.pathsList (i : Nat) : List Value → List (List Seg)
  | [] => []
  | x :: xs => (Value.paths x).map (Seg.idx i :: ·) ++ Value.pathsList (i + 1) xs

/-- Paths of the entries of a mapping node. -/
def Value.pathsKvs : List (String × Value) → List (List Seg)
  | [] => []
  | (k, v) :: rest => (Value.paths v).map (Seg.key k :: ·) ++ Value.pathsKvs rest

end

/-- The `parseInt` conversion `Script.path` applies to every component of a
found path (numeric-looking mapping keys become numbers — including keys such
as `"1abc"`, which `parseInt` truncates). -/
def convertSeg : Seg → Seg
  | .idx n => .idx n
  | .key s =>
    match jsParseInt s with
    | some n => .idx n
    | none => .key s

/-- `Script.node`: the source node at `path` (`null` miss modelled as
`none`); the empty path denotes the source itself. -/
def nodeAt (source : List Value) (p : List Seg) : Option Value :=
  if p = [] then some (.list source) else getPath (.list source) p

/-- `Script.path`: first path of the source tree whose node is the searched
node (structural equality standing in for `Object.is` — reachable frame codes
are identity-shared subtrees of the source), with each component run through
`parseInt`. -/
def findPath (source : List Value) (node : Value) : Option (List Seg) :=
  ((Value.paths (.list source)).find? fun p =>
      getPath (.list source) p == some node).map (List.map convertSeg)

theorem findPath_some {source : List Value} {node : Value} {p : List Seg}
    (h : findPath source node = some p) :
    ∃ q, p = q.map convertSeg ∧ getPath (.list source) q = some node := by
  unfold findPath at h
  cases hf : (Value.paths (.list source)).find? fun q =>
      getPath (.list source) q == some node with
  | none => simp [hf] at h
  | some q =>
    have := List.find?_some hf
    simp only [beq_iff_eq] at this
    refine ⟨q, ?_, this⟩
    simp [hf] at h
    exact h.symm

/-! ## Serializer (utils/serialize.ts) -/

mutual

/-- `Serializer.stringify` up to the JSON text layer: tagged containers become
plain mappings carrying the `__class` discriminant, everything else passes
through structurally. -/
def serialize : Value → Value
  | .null => .null
  | .bool b => .bool b
  | .num n => .num n
  | .str s => .str s
  | .exp e => .map [("__class", .str "ScriptExp"), ("exp", .str e)]
  | .fmt f => .map [("__class", .str "ScriptFmt"), ("fmt", .str f)]
  | .list xs => .list (serializeList xs)
  | .map kvs => .map (serializeKvs kvs)

/-- `serialize` over list elements. -/
def serializeList : List Value → List Value
  | [] => []
  | x :: xs => serialize x :: serializeList xs

/-- `serialize` over mapping entries. -/
def serializeKvs : List (String × Value) → List (String × Value)
  | [] => []
  | (k, v) :: rest => (k, serialize v) :: serializeKvs rest

end

mutual

/-- `Serializer.parse` past `JSON.parse`: every mapping carrying a `__class`
key is revived through the registered class table `{ScriptFmt, ScriptExp}`;
an unknown discriminant raises (`ReferenceError`).  Non-string payloads
degenerate to the empty string (in JavaScript they would produce a container
holding `undefined`; no claim depends on that corner). -/
def revive : Value → Except String Value
  | .map kvs =>
    match kvs.lookup "__class" with
    | some c =>
      if c = .str "ScriptExp" then
        match kvs.lookup "exp" with
        | some (.str e) => .ok (.exp e)
        | _ => .ok (.exp "")
      else if c = .str "ScriptFmt" then
        match kvs.lookup "fmt" with
        | some (.str f) => .ok (.fmt f)
        | _ => .ok (.fmt "")
      else .error "Unknown serializable entity"
    | none =>
      match reviveKvs kvs with
      | .ok kvs' => .ok (.map kvs')
      | .error msg => .error msg
  | .list xs =>
    match reviveList xs with
    | .ok xs' => .ok (.list xs')
    | .error msg => .error msg
  | v => .ok v

/-- `revive` over list elements. -/
def reviveList : List Value → Except String (List Value)
  | [] => .ok []
  | x :: xs =>
    match revive x with
    | .error msg => .error msg
    | .ok x' =>
      match reviveList xs with
      | .error msg => .error msg
      | .ok xs' => .ok (x' :: xs')

/-- `revive` over mapping entries. -/
def reviveKvs : List (String × Value) → Except String (List (String × Value))
  | [] => .ok []
  | (k, v) :: rest =>
    match revive v with
    | .error msg => .error msg
    | .ok v' =>
      match reviveKvs rest with
      | .error msg => .error msg
      | .ok rest' => .ok ((k, v') :: rest')

end

mutual

/-- No mapping anywhere in the value carries the reserved `__class` key (the
serializer's discriminant); such values round-trip losslessly. -/
def noClass : Value → Bool
  | .list xs => noClassList xs
  | .map kvs => noClassKvs kvs
  | _ => true

/-- `noClass` over list elements. -/
def noClassList : List Value → Bool
  | [] => true
  | x :: xs => noClass x && noClassList xs

/-- `noClass` over mapping entries. -/
def noClassKvs : List (String × Value) → Bool
  | [] => true
  | (k, v) :: rest => (!(k = "__class" : Bool)) && noClass v && noClassKvs rest

end

mutual

theorem serializeKvs_lookup_class (kvs : List (String × Value))
    (h : noClassKvs kvs = true) :
    (serializeKvs kvs).lookup "__class" = none := by
  match kvs with
  | [] => rfl
  | (k, v) :: rest =>
    simp only [noClassKvs, Bool.and_eq_true, Bool.not_eq_true',
      decide_eq_false_iff_not] at h
    have hr := serializeKvs_lookup_class rest h.2
    simp only [serializeKvs, List.lookup]
    have : (("__class" : String) == k) = false := by
      simp only [beq_eq_false_iff_ne, ne_eq]
      intro hk
      exact h.1.1 hk.symm
    simp [this, hr]

end

mutual

/-- Values free of the reserved discriminant survive the serialize/parse
round trip unchanged. -/
theorem revive_serialize (v : Value) (h : noClass v = true) :
    revive (serialize v) = .ok v := by
  match v with
  | .null => rfl
  | .bool b => rfl
  | .num n => rfl
  | .str s => rfl
  | .exp e => rfl
  | .fmt f => rfl
  | .list xs =>
    have := reviveList_serializeList xs (by simpa [noClass] using h)
    simp [serialize, revive, this]
  | .map kvs =>
    have hk : noClassKvs kvs = true := by simpa [noClass] using h
    have hl := serializeKvs_lookup_class kvs hk
    have := reviveKvs_serializeKvs kvs hk
    simp [serialize, revive, hl, this]

theorem reviveList_serializeList (xs : List Value) (h : noClassList xs = true) :
    reviveList (serializeList xs) = .ok xs := by
  match xs with
  | [] => rfl
  | x :: rest =>
    simp only [noClassList, Bool.and_eq_true] at h
    have h1 := revive_serialize x h.1
    have h2 := reviveList_serializeList rest h.2
    simp [serializeList, reviveList, h1, h2]

theorem reviveKvs_serializeKvs (kvs : List (String × Value))
    (h : noClassKvs kvs = true) :
    reviveKvs (serializeKvs kvs) = .ok kvs := by
  match kvs with
  | [] => rfl
  | (k, v) :: rest =>
    simp only [noClassKvs, Bool.and_eq_true, decide_eq_true_eq] at h
    have h1 := revive_serialize v h.1.2
    have h2 := reviveKvs_serializeKvs rest h.2
    simp [serializeKvs, reviveKvs, h1, h2]

end

/-! ## Script interpreter state, save and load (core/script.ts) -/

/-- Interpreter state: the root source, the variable scope (`Scope.dump` is
the entry list itself) and the execution stack.  The subscriber list is
modelled separately (see the event-delivery section), since no other
operation reads it. -/
structure Script where
  source : List Value
  scope : List (String × Value)
  stack : Stack.St
deriving DecidableEq, Repr

/-- The script error message raised by a failing `load`. -/
def loadErrorMessage : String := "Error loading save - it may be broken or unsupported."

/-- Path component to its JSON form inside a save. -/
def segToValue : Seg → Value
  | .key s => .str s
  | .idx n => .num n

/-- JSON form of a path component back to a `Seg` (elements of other shapes
would be coerced to object keys by lodash; modelled as a lookup miss). -/
def decodeSeg : Value → Option Seg
  | .str s => some (.key s)
  | .num n => some (.idx n)
  | _ => none

/-- Decoding of a stored `path` value. -/
def decodeSegs : Value → Option (List Seg)
  | .list vs => vs.mapM decodeSeg
  | _ => none

/-- The saved form of one stack frame: `{ path: this.path(x.code)!, ...x }`.
When the code is not found in the source the `path` property is `undefined`
and `JSON.stringify` drops it. -/
def frameEntry (source : List Value) (f : StackFrame) : Value :=
  .map
    ((match findPath source (.list f.code) with
      | some p => [("path", Value.list (p.map segToValue))]
      | none => []) ++
      [("programCounter", .num f.programCounter), ("code", .list f.code)])

/-- `Script.save` before serialization: `{ scope, stack }` where the stack is
`this.stack.dump()` — note that `dump` reverses the live stack in place, so
`save` also returns the mutated script. -/
def Script.saveRaw (s : Script) : Value × Script :=
  let dumped := Stack.dump s.stack
  (Value.map
      [("scope", .map s.scope),
        ("stack", .list (dumped.1.map (frameEntry s.source)))],
    { s with stack := dumped.2 })

/-- `Script.save`: the serialized save tree (JSON text layer elided) together
with the script state after the call. -/
def Script.save (s : Script) : Value × Script :=
  let raw := s.saveRaw
  (serialize raw.1, raw.2)

/-- Processing of one saved stack frame inside `load`: resolve the stored
path in the current source, skip the frame when the lookup misses (or hits a
falsy node), otherwise push the stored code, restore the counter and patch
against the current code.  Structurally broken entries make the surrounding
`try` fail (the model raises before pushing the partially-built frame; in
JavaScript `Stack.patch` throws after the push — no claim observes that
intermediate frame). -/
def loadEntry (src : List Value) (st : Stack.St) (e : Value) :
    Except String Stack.St :=
  if e = .null then .error loadErrorMessage
  else
    let updated : Option Value :=
      match e.getKey "path" with
      | some p =>
        match decodeSegs p with
        | some segs => nodeAt src segs
        | none => none
      | none => none
    match updated with
    | none => .ok st
    | some u =>
      if u.falsy then .ok st
      else
        match u with
        | .list ucode =>
          match e.getKey "code", e.getKey "programCounter" with
          | some (.list c), some (.num n) =>
            .ok (Stack.patch { programCounter := n, code := c } ucode :: st)
          | _, _ => .error loadErrorMessage
        | _ => .error loadErrorMessage

/-- The frame-restoration loop of `load`; an error aborts the loop leaving
the frames already rebuilt. -/
def loadFrames (src : List Value) : List Value → Stack.St →
    Stack.St × Option String
  | [], st => (st, none)
  | e :: rest, st =>
    match loadEntry src st e with
    | .ok st' => loadFrames src rest st'
    | .error m => (st, some m)

/-- `Script.load` on the parsed save value: a failure inside
`serializer.parse` (or a `null` payload, whose destructuring throws) is
caught before any mutation; afterwards the scope is replaced and the stack
cleared first, so later failures (a missing or non-iterable `stack` field, a
broken frame entry) leave that partial state behind.  Every failure inside
the `try` is re-thrown as the single script error message.  Returns the
resulting state and the raised script error, if any. -/
def Script.load (s : Script) (input : Value) : Script × Option String :=
  match revive input with
  | .error _ => (s, some loadErrorMessage)
  | .ok v =>
    if v = .null then (s, some loadErrorMessage)
    else
      let scopeEntries : List (String × Value) :=
        match v.getKey "scope" with
        | some (.map kvs) => kvs
        | _ => []
      let s1 : Script := { s with scope := scopeEntries, stack := [] }
      match v.getKey "stack" with
      | some (.list es) =>
        let r := loadFrames s.source es []
        ({ s1 with stack := r.1 }, r.2.map fun _ => loadErrorMessage)
      | some (.str cs) =>
        let r := loadFrames s.source
          (cs.toList.map fun c => Value.str (String.singleton c)) []
        ({ s1 with stack := r.1 }, r.2.map fun _ => loadErrorMessage)
      | _ => (s1, some loadErrorMessage)

/-- `Script.patch`: `save()`, swap the source, `load()`. -/
def Script.patchSource (s : Script) (newSource : List Value) :
    Script × Option String :=
  let saved := Script.save s
  Script.load { saved.2 with source := newSource } saved.1

/-- `Script.jump`: locate the root-level `{label}` command, push the source
if the stack is empty, then set the root frame's counter.  The root frame is
obtained through `dump()[0]`, so the live stack is left reversed. -/
def Script.jump (s : Script) (label : String) : Except String Script :=
  match s.source.findIdx? (fun cmd => cmd = .map [("label", .str label)]) with
  | none => .error ("Label \"" ++ label ++ "\" is not found")
  | some i =>
    let st := if Stack.isEmpty s.stack then (Stack.push s.source s.stack).2
      else s.stack
    match st.reverse with
    | [] => .ok { s with stack := [] }
    | root :: rest =>
      .ok { s with stack := { root with programCounter := (i : Int) } :: rest }

/-! ## Command execution and stepping (core/script.ts) -/

/-- A dispatched script event (`ScriptEvent`): `data` is `none` when the
`data` argument was absent (`undefined`). -/
structure Event where
  type : String
  data : Option Value
deriving DecidableEq, Repr

/-- A raised script error: message plus the node path attached by `step`. -/
structure ScriptError where
  msg : String
  path : Option (List Seg)
deriving DecidableEq, Repr

/-- Oracle for the host-language pieces the interpreter delegates to
JavaScript: `Scope.renderExpression` / `Scope.renderTemplate` (both close
over the scope), the `eval` command body (which mutates the scope through
`this`), and lodash `camelCase`. -/
structure JsOracle where
  renderExpression : List (String × Value) → String → Value
  renderTemplate : List (String × Value) → String → String
  runEval : List (String × Value) → String → List (String × Value)
  camelCase : String → String

mutual

/-- `Script.eval`: resolve every `ScriptExp` and `ScriptFmt` inside the node,
recursing through mappings and lists (`mapValues` / `map`). -/
def evalNode (O : JsOracle) (scope : List (String × Value)) : Value → Value
  | .map kvs => .map (evalKvs O scope kvs)
  | .list xs => .list (evalList O scope xs)
  | .exp e => O.renderExpression scope e
  | .fmt f => .str (O.renderTemplate scope f)
  | v => v

/-- `Script.eval` over list elements. -/
def evalList (O : JsOracle) (scope : List (String × Value)) :
    List Value → List Value
  | [] => []
  | x :: xs => evalNode O scope x :: evalList O scope xs

/-- `Script.eval` over mapping entries. -/
def evalKvs (O : JsOracle) (scope : List (String × Value)) :
    List (String × Value) → List (String × Value)
  | [] => []
  | (k, v) :: rest => (k, evalNode O scope v) :: evalKvs O scope rest

end

mutual

/-- A node containing no tagged expression or template. -/
def pureVal : Value → Bool
  | .exp _ => false
  | .fmt _ => false
  | .list xs => pureList xs
  | .map kvs => pureKvs kvs
  | _ => true

/-- `pureVal` over list elements. -/
def pureList : List Value → Bool
  | [] => true
  | x :: xs => pureVal x && pureList xs

/-- `pureVal` over mapping entries. -/
def pureKvs : List (String × Value) → Bool
  | [] => true
  | (_, v) :: rest => pureVal v && pureKvs rest

end

mutual

/-- Expression-free nodes evaluate to themselves. -/
theorem evalNode_pure (O : JsOracle) (scope : List (String × Value))
    (v : Value) (h : pureVal v = true) : evalNode O scope v = v := by
  match v with
  | .null => rfl
  | .bool _ => rfl
  | .num _ => rfl
  | .str _ => rfl
  | .list xs =>
    have := evalList_pure O scope xs (by simpa [pureVal] using h)
    simp [evalNode, this]
  | .map kvs =>
    have := evalKvs_pure O scope kvs (by simpa [pureVal] using h)
    simp [evalNode, this]
  | .exp _ => simp [pureVal] at h
  | .fmt _ => simp [pureVal] at h

theorem evalList_pure (O : JsOracle) (scope : List (String × Value))
    (xs : List Value) (h : pureList xs = true) : evalList O scope xs = xs := by
  match xs with
  | [] => rfl
  | x :: rest =>
    simp only [pureList, Bool.and_eq_true] at h
    simp [evalList, evalNode_pure O scope x h.1, evalList_pure O scope rest h.2]

theorem evalKvs_pure (O : JsOracle) (scope : List (String × Value))
    (kvs : List (String × Value)) (h : pureKvs kvs = true) :
    evalKvs O scope kvs = kvs := by
  match kvs with
  | [] => rfl
  | (k, v) :: rest =>
    simp only [pureKvs, Bool.and_eq_true] at h
    simp [evalKvs, evalNode_pure O scope v h.1, evalKvs_pure O scope rest h.2]

end

/-- `Script.unpack`: a command is a plain mapping with exactly one key; its
key is the command type and its value the arguments. -/
def unpack : Value → Option (String × Value)
  | .map [(k, v)] => some (k, v)
  | _ => none

/-- Result of executing one command: resulting state, events delivered to
subscribers during the execution, and the raised error, if any. -/
structure ExecOut where
  state : Script
  events : List Event
  error : Option String
deriving DecidableEq, Repr

/-- `Script.exec`: unpack the node and dispatch on the command type.
Argument schemas follow the zod validations of the source; `validate`
returns the original value, so extra keys are accepted where the schema is
not strict.  `print` writes to the console (not an event); only the `emit`
command delivers an event. -/
def Script.exec (O : JsOracle) (s : Script) (node : Value) : ExecOut :=
  match unpack node with
  | none => ⟨s, [], some "Invalid command"⟩
  | some (t, args) =>
    if t = "if" then
      match args with
      | .map kvs =>
        let thenBranch := kvs.lookup "then"
        let elseBranch := kvs.lookup "else"
        let thenOk := match thenBranch with
          | none => true
          | some (.list _) => true
          | some _ => false
        let elseOk := match elseBranch with
          | none => true
          | some (.list _) => true
          | some _ => false
        if thenOk && elseOk then
          let cond := (kvs.lookup "cond").getD .null
          if (evalNode O s.scope cond).truthy then
            match thenBranch with
            | some (.list ts) =>
              ⟨{ s with stack := (Stack.push ts s.stack).2 }, [], none⟩
            | _ => ⟨s, [], none⟩
          else
            match elseBranch with
            | some (.list es) =>
              ⟨{ s with stack := (Stack.push es s.stack).2 }, [], none⟩
            | _ => ⟨s, [], none⟩
        else ⟨s, [], some "Expected array"⟩
      | _ => ⟨s, [], some "Expected object"⟩
    else if t = "label" then
      match evalNode O s.scope args with
      | .str _ => ⟨s, [], none⟩
      | _ => ⟨s, [], some "Expected string"⟩
    else if t = "jump" then
      match evalNode O s.scope args with
      | .str label =>
        match Script.jump s label with
        | .ok s' => ⟨s', [], none⟩
        | .error m => ⟨s, [], some m⟩
      | _ => ⟨s, [], some "Expected string"⟩
    else if t = "eval" then
      match evalNode O s.scope args with
      | .str code => ⟨{ s with scope := O.runEval s.scope code }, [], none⟩
      | _ => ⟨s, [], some "Expected string"⟩
    else if t = "print" then
      match evalNode O s.scope args with
      | .str _ => ⟨s, [], none⟩
      | _ => ⟨s, [], some "Expected string"⟩
    else if t = "throw" then
      match evalNode O s.scope args with
      | .str text => ⟨s, [], some text⟩
      | _ => ⟨s, [], some "Expected string"⟩
    else if t = "set" then
      match evalNode O s.scope args with
      | .map kvs =>
        match kvs.lookup "name" with
        | some (.str n) =>
          ⟨{ s with scope := mapSet s.scope n ((kvs.lookup "value").getD .null) },
            [], none⟩
        | _ => ⟨s, [], some "Expected string name"⟩
      | _ => ⟨s, [], some "Expected object"⟩
    else if t = "emit" then
      match evalNode O s.scope args with
      | .map kvs =>
        match kvs.lookup "type" with
        | some (.str ty) => ⟨s, [⟨ty, kvs.lookup "data"⟩], none⟩
        | _ => ⟨s, [], some "Expected string type"⟩
      | _ => ⟨s, [], some "Expected object"⟩
    else ⟨s, [], some ("Unknown command: " ++ t)⟩

/-- Result of `step`: resulting state, delivered events, raised script error
(with node path) if any. -/
structure StepOut where
  state : Script
  events : List Event
  error : Option ScriptError
deriving DecidableEq, Repr

/-- The body of `Script.step`, parameterized by the (dynamically dispatched)
`exec` method: pull one slice — if the stack yields nothing, do nothing —
then execute it, re-raising failures as a script error carrying the node's
source path.  The current source contains **no** `emit('step')`: a
successful step delivers only the events of the executed command itself. -/
def Script.stepCore (execF : Script → Value → ExecOut) (s : Script) : StepOut :=
  match Stack.pull s.stack with
  | none => ⟨s, [], none⟩
  | some (slice, st') =>
    let out := execF { s with stack := st' } slice.value
    match out.error with
    | none => ⟨out.state, out.events, none⟩
    | some m => ⟨out.state, out.events, some ⟨m, findPath s.source slice.value⟩⟩

/-- `Script.step`. -/
def Script.step (O : JsOracle) (s : Script) : StepOut :=
  Script.stepCore (Script.exec O) s

/-! ## Event delivery (`Script.emit` / `Script.subscribe`)

Listeners are identified by their registration number; a listener's behaviour
during delivery is the list of unsubscribe calls it performs (`act`).  The
returned unsubscribe closure runs `subs.splice(subs.indexOf(listener), 1)`:
it erases the listener's first occurrence — and when the listener is no
longer present (`indexOf` returns `-1`), `splice(-1, 1)` removes the **last**
element instead.  `emit` is `Array.prototype.forEach`: the length is read
once up front, each index is re-checked against the live array, and holes
created by removals are skipped. -/

/-- One unsubscribe call. -/
def unsubOnce (subs : List Nat) (l : Nat) : List Nat :=
  if subs.contains l then subs.erase l else subs.dropLast

/-- All unsubscribe calls a listener performs, in order. -/
def applyUnsubs (subs : List Nat) (ls : List Nat) : List Nat :=
  ls.foldl unsubOnce subs

/-- The `forEach` loop of `emit`: `fuel` counts the remaining indices of the
initially-read length; `subs.get? k` is the liveness check `k in O` together
with the current element read. -/
def emitLoop (act : Nat → List Nat) : Nat → Nat → List Nat → List Nat × List Nat
  | 0, _, subs => ([], subs)
  | fuel + 1, k, subs =>
    match subs[k]? with
    | some l =>
      let subs' := applyUnsubs subs (act l)
      let r := emitLoop act fuel (k + 1) subs'
      (l :: r.1, r.2)
    | none => emitLoop act fuel (k + 1) subs

/-- `Script.emit`: build the event once and deliver it to the subscriber
array via `forEach`.  Returns the invocations (listener, type, data) in call
order and the final subscriber list. -/
def Script.emitRun (ty : String) (da : Option Value) (act : Nat → List Nat)
    (subs : List Nat) : List (Nat × String × Option Value) × List Nat :=
  let r := emitLoop act subs.length 0 subs
  (r.1.map fun l => (l, ty, da), r.2)

/-! ## Scene dialect (core/scene.ts)

A `Scene` is a `Script` whose scope carries the reserved variables `state`,
`yield`, `event` and `menu`, with extra commands dispatched by the overridden
`exec`.  `setState` merges a validated deep-partial update into the state via
lodash `mergeWith` with a customizer that replaces arrays wholesale. -/

mutual

/-- lodash `mergeWith` at one property, with the scene customizer: if either
side is an array the update wins wholesale (`.list` cases); two plain
mappings merge recursively; otherwise the update value (including `null`)
overwrites.  A missing current value (`none`) takes a copy of the update. -/
def mergeProp : Option Value → Value → Value
  | _, .list xs => .list xs
  | some (.list _), .map nkvs => .map nkvs
  | some (.map ckvs), .map nkvs => .map (mergeEntries ckvs nkvs)
  | _, .map nkvs => .map nkvs
  | _, .null => .null
  | _, .bool b => .bool b
  | _, .num n => .num n
  | _, .str s => .str s
  | _, .exp e => .exp e
  | _, .fmt f => .fmt f

/-- Merge of the update entries into the current entries, one property at a
time (later update keys see the already-updated object). -/
def mergeEntries (acc : List (String × Value)) :
    List (String × Value) → List (String × Value)
  | [] => acc
  | (k, nv) :: rest =>
    mergeEntries (mapSet acc k (mergeProp (acc.lookup k) nv)) rest

end

/-- Top-level `mergeWith(state, valid, customizer)`: the update here is
always a validated mapping; an undefined current state receives a copy of
the update (lodash boxes the base object), degenerate non-mapping states
are overwritten. -/
def mergeTop (curr : Option Value) (update : Value) : Value :=
  match curr, update with
  | some (.map ckvs), .map ukvs => .map (mergeEntries ckvs ukvs)
  | _, _ => update

/-- zod `string` on an optional field. -/
def isOptStr : Option Value → Bool
  | none => true
  | some (.str _) => true
  | _ => false

/-- zod `number` on an optional field. -/
def isOptNum : Option Value → Bool
  | none => true
  | some (.num _) => true
  | _ => false

/-- zod `boolean` on an optional field. -/
def isOptBool : Option Value → Bool
  | none => true
  | some (.bool _) => true
  | _ => false

/-- zod `record(string)`. -/
def isStrRecord : Value → Bool
  | .map kvs => kvs.all fun kv => match kv.2 with | .str _ => true | _ => false
  | _ => false

/-- `SceneSoundSchema` (strict): `{path, volume?, rate?, loop?}`. -/
def soundValid : Value → Bool
  | .map kvs =>
    (kvs.all fun kv => kv.1 ∈ ["path", "volume", "rate", "loop"]) &&
    (match kvs.lookup "path" with | some (.str _) => true | _ => false) &&
    isOptNum (kvs.lookup "volume") &&
    isOptNum (kvs.lookup "rate") &&
    isOptBool (kvs.lookup "loop")
  | _ => false

/-- `SceneSpriteSchema` (strict): `{id, image, position?, style?}`. -/
def spriteValid : Value → Bool
  | .map kvs =>
    (kvs.all fun kv => kv.1 ∈ ["id", "image", "position", "style"]) &&
    (match kvs.lookup "id" with | some (.str _) => true | _ => false) &&
    (match kvs.lookup "image" with | some (.str _) => true | _ => false) &&
    isOptStr (kvs.lookup "position") &&
    (match kvs.lookup "style" with | none => true | some st => isStrRecord st)
  | _ => false

/-- Deep-partial strict sprite (zod `deepPartial` recurses into the array
element schema, making `id` and `image` optional too). -/
def spritePartialValid : Value → Bool
  | .map kvs =>
    (kvs.all fun kv => kv.1 ∈ ["id", "image", "position", "style"]) &&
    isOptStr (kvs.lookup "id") &&
    isOptStr (kvs.lookup "image") &&
    isOptStr (kvs.lookup "position") &&
    (match kvs.lookup "style" with | none => true | some st => isStrRecord st)
  | _ => false

/-- Deep-partial strict background: `{image?: string|null, position?, color?}`. -/
def backgroundPartialValid : Value → Bool
  | .map kvs =>
    (kvs.all fun kv => kv.1 ∈ ["image", "position", "color"]) &&
    (match kvs.lookup "image" with
      | none => true | some .null => true | some (.str _) => true | _ => false) &&
    isOptStr (kvs.lookup "position") &&
    isOptStr (kvs.lookup "color")
  | _ => false

/-- `SceneStateSchema.deepPartial()` (strict): the validation applied both to
`page` arguments and inside `setState`.  `loop` is a union, which zod's
`deepPartial` does not recurse into: it stays `SceneSoundSchema.or(null)`. -/
def pageArgsValid : Value → Bool
  | .map kvs =>
    (kvs.all fun kv => kv.1 ∈ ["name", "text", "background", "sprites", "loop"]) &&
    isOptStr (kvs.lookup "name") &&
    isOptStr (kvs.lookup "text") &&
    (match kvs.lookup "background" with
      | none => true | some b => backgroundPartialValid b) &&
    (match kvs.lookup "sprites" with
      | none => true
      | some (.list ss) => ss.all spritePartialValid
      | some _ => false) &&
    (match kvs.lookup "loop" with
      | none => true | some .null => true | some l => soundValid l)
  | _ => false

/-- `Scene.setState`: validate the partial update, then merge it into the
`state` scope variable.  (zod's parse returns a copy keyed in schema order;
the model merges the update as-is — no claim observes the state's key
order.) -/
def Scene.setState (s : Script) (update : Value) : Except String Script :=
  if pageArgsValid update then
    let merged := mergeTop (s.scope.lookup "state") update
    .ok { s with scope := mapSet s.scope "state" merged }
  else .error "Invalid scene state"

/-- Deduplication by the computed `id` key, first occurrence wins (lodash
`uniqBy(xs, 'id')`; `undefined` keys compare equal to each other). -/
def uniqById : List Value → List (Option Value) → List Value
  | [], _ => []
  | x :: xs, seen =>
    let k := x.getKey "id"
    if seen.contains k then uniqById xs seen
    else x :: uniqById xs (k :: seen)

/-- The current `state.sprites` list (`this.getState().sprites`); spreading a
non-array would throw in JavaScript, reported here as `none`. -/
def currentSprites (s : Script) : Option (List Value) :=
  match s.scope.lookup "state" with
  | some st =>
    match st.getKey "sprites" with
    | some (.list ss) => some ss
    | _ => none
  | none => none

/-- `Scene.exec`: scene commands, falling back to `Script.exec` for the base
command set. -/
def Scene.exec (O : JsOracle) (s : Script) (node : Value) : ExecOut :=
  match unpack node with
  | none => ⟨s, [], some "Invalid command"⟩
  | some (t, args) =>
    if t = "page" then
      let data := evalNode O s.scope args
      if pageArgsValid data then
        let yieldFlag : Except String Bool :=
          match Stack.peek s.stack with
          | none => .ok true
          | some slice =>
            match unpack slice.value with
            | none => .error "Invalid command"
            | some (nt, _) => .ok (nt ≠ "menu")
        match yieldFlag with
        | .error m => ⟨s, [], some m⟩
        | .ok y =>
          let s1 := { s with scope := mapSet s.scope "yield" (.bool y) }
          match Scene.setState s1 data with
          | .ok s2 => ⟨s2, [], none⟩
          | .error m => ⟨s1, [], some m⟩
      else ⟨s, [], some "Invalid scene state"⟩
    else if t = "menu" then
      match args with
      | .map kvs =>
        if kvs.all (fun kv => kv.2.isList) then
          let s1 := { s with scope := mapSet s.scope "yield" (.bool true) }
          let menuVal := Value.list (kvs.map fun kv =>
            .map ([("id", .str (O.camelCase kv.1)), ("label", .str kv.1)] ++
              (match findPath s.source kv.2 with
                | some p => [("path", .list (p.map segToValue))]
                | none => [])))
          ⟨{ s1 with scope := mapSet s1.scope "menu" menuVal }, [], none⟩
        else ⟨s, [], some "Expected array"⟩
      | _ => ⟨s, [], some "Expected object"⟩
    else if t = "play" then
      let data := evalNode O s.scope args
      if soundValid data then
        if truthyOpt (data.getKey "loop") then
          match Scene.setState s (.map [("loop", data)]) with
          | .ok s1 => ⟨s1, [⟨"play", some data⟩], none⟩
          | .error m => ⟨s, [⟨"play", some data⟩], some m⟩
        else ⟨s, [⟨"play", some data⟩], none⟩
      else ⟨s, [], some "Invalid sound"⟩
    else if t = "stop" then
      let data := evalNode O s.scope args
      match data with
      | .map kvs =>
        if isOptBool (kvs.lookup "fade") then
          match Scene.setState s (.map [("loop", .null)]) with
          | .ok s1 => ⟨s1, [⟨"stop", some data⟩], none⟩
          | .error m => ⟨s, [], some m⟩
        else ⟨s, [], some "Expected boolean"⟩
      | _ => ⟨s, [], some "Expected object"⟩
    else if t = "wait" then
      let data := evalNode O s.scope args
      match data with
      | .map kvs =>
        match kvs.lookup "seconds" with
        | some (.num _) =>
          ⟨{ s with scope := mapSet s.scope "yield" (.bool true) },
            [⟨"wait", some data⟩], none⟩
        | _ => ⟨s, [], some "Expected number"⟩
      | _ => ⟨s, [], some "Expected object"⟩
    else if t = "show" then
      let data := evalNode O s.scope args
      if spriteValid data then
        match currentSprites s with
        | some ss =>
          let sprites := uniqById (data :: ss) []
          match Scene.setState s (.map [("sprites", .list sprites)]) with
          | .ok s1 => ⟨s1, [], none⟩
          | .error m => ⟨s, [], some m⟩
        | none => ⟨s, [], some "Sprites are not iterable"⟩
      else ⟨s, [], some "Invalid sprite"⟩
    else if t = "hide" then
      let data := evalNode O s.scope args
      match data with
      | .map kvs =>
        match kvs.lookup "id" with
        | some (.str hid) =>
          match currentSprites s with
          | some ss =>
            let sprites := ss.filter (fun sp => sp.getKey "id" != some (.str hid))
            match Scene.setState s (.map [("sprites", .list sprites)]) with
            | .ok s1 => ⟨s1, [], none⟩
            | .error m => ⟨s, [], some m⟩
          | none => ⟨s, [], some "Sprites are not filterable"⟩
        | _ => ⟨s, [], some "Expected string"⟩
      | _ => ⟨s, [], some "Expected object"⟩
    else Script.exec O s node

/-- `Scene.step`: the overridden step is guarded by the reserved `yield`
variable — when it is truthy nothing at all happens; otherwise the inherited
step body runs with the scene's `exec`. -/
def Scene.step (O : JsOracle) (s : Script) : StepOut :=
  if truthyOpt (s.scope.lookup "yield") then ⟨s, [], none⟩
  else Script.stepCore (Scene.exec O) s

/-- The scene's initial presentation state (the `initialState` literal). -/
def initialStateValue : Value :=
  .map
    [("name", .str ""), ("text", .str ""), ("sprites", .list []),
      ("loop", .null),
      ("background", .map
        [("image", .null), ("position", .str "center"), ("color", .str "#333")])]

/-- The `Scene` constructor: push the source, install the initial state and
the reserved variables. -/
def Scene.init (source : List Value) : Script :=
  let s0 : Script := { source := source, scope := [], stack := [⟨0, source⟩] }
  let s1 := match Scene.setState s0 initialStateValue with
    | .ok s => s
    | .error _ => s0
  let sc1 := mapSet s1.scope "yield" (.bool true)
  let sc2 := mapSet sc1 "event" Value.null
  let sc3 := mapSet sc2 "menu" Value.null
  { s1 with scope := sc3 }

/-! ## Helper lemmas -/

theorem lookup_mapSet_self (kvs : List (String × Value)) (k : String) (v : Value) :
    (mapSet kvs k v).lookup k = some v := by
  induction kvs with
  | nil => simp [mapSet, List.lookup]
  | cons kv rest ih =>
    obtain ⟨k', v'⟩ := kv
    by_cases h : k' = k
    · simp [mapSet, h, List.lookup]
    · have hne : (k == k') = false := by
        simp only [beq_eq_false_iff_ne, ne_eq]
        exact fun hh => h hh.symm
      simp [mapSet, h, List.lookup, hne, ih]

theorem lookup_mapSet_ne (kvs : List (String × Value)) (k k' : String) (v : Value)
    (h : k' ≠ k) : (mapSet kvs k v).lookup k' = kvs.lookup k' := by
  induction kvs with
  | nil =>
    have hne : (k' == k) = false := by simpa using h
    simp [mapSet, List.lookup, hne]
  | cons kv rest ih =>
    obtain ⟨k0, v0⟩ := kv
    by_cases h0 : k0 = k
    · subst h0
      have hne : (k' == k0) = false := by simpa using h
      simp [mapSet, List.lookup, hne]
    · simp only [mapSet, if_neg h0]
      by_cases h1 : k' = k0
      · simp [List.lookup, h1]
      · have hne : (k' == k0) = false := by simpa using h1
        simp [List.lookup, hne, ih]

theorem lookup_eq_none_of_keys (kvs : List (String × Value)) (k : String)
    (h : ∀ kv ∈ kvs, kv.1 ≠ k) : kvs.lookup k = none := by
  induction kvs with
  | nil => rfl
  | cons kv rest ih =>
    obtain ⟨k0, v0⟩ := kv
    have h0 : k0 ≠ k := h (k0, v0) (by simp)
    have hne : (k == k0) = false := by
      simp only [beq_eq_false_iff_ne, ne_eq]
      exact fun hh => h0 hh.symm
    simp only [List.lookup, hne]
    exact ih fun kv hm => h kv (by simp [hm])

theorem mem_of_lookup_eq_some {kvs : List (String × Value)} {k : String}
    {v : Value} (h : kvs.lookup k = some v) : (k, v) ∈ kvs := by
  induction kvs with
  | nil => simp [List.lookup] at h
  | cons kv rest ih =>
    obtain ⟨k0, v0⟩ := kv
    by_cases h0 : k = k0
    · subst h0
      simp [List.lookup] at h
      simp [h]
    · have hne : (k == k0) = false := by simpa using h0
      simp only [List.lookup, hne] at h
      simp [ih h]

/-- Merging with nodup update keys reads back as: update keys merge
property-wise, everything else is untouched. -/
theorem mergeEntries_lookup (nkvs : List (String × Value)) :
    ∀ (ckvs : List (String × Value)), (nkvs.map Prod.fst).Nodup →
      ∀ k, (mergeEntries ckvs nkvs).lookup k =
        match nkvs.lookup k with
        | some nv => some (mergeProp (ckvs.lookup k) nv)
        | none => ckvs.lookup k := by
  induction nkvs with
  | nil => intro ckvs _ k; simp [mergeEntries, List.lookup]
  | cons kv rest ih =>
    intro ckvs hnodup k
    obtain ⟨k0, nv⟩ := kv
    simp only [List.map_cons, List.nodup_cons] at hnodup
    have hrest := ih (mapSet ckvs k0 (mergeProp (ckvs.lookup k0) nv)) hnodup.2
    by_cases hk : k = k0
    · subst hk
      have hnone : rest.lookup k = none := by
        apply lookup_eq_none_of_keys
        intro kv hm hkv
        exact hnodup.1 (by simpa [hkv] using List.mem_map_of_mem Prod.fst hm)
      simp only [mergeEntries]
      rw [hrest k, hnone]
      simp [List.lookup, lookup_mapSet_self]
    · have hne : (k == k0) = false := by simpa using hk
      simp only [mergeEntries]
      rw [hrest k]
      rw [lookup_mapSet_ne _ _ _ _ hk]
      simp [List.lookup, hne]

/-- Array updates win wholesale in a property merge. -/
theorem mergeProp_list (c : Option Value) (xs : List Value) :
    mergeProp c (.list xs) = .list xs := by
  rw [mergeProp]

/-- Non-array, non-mapping updates overwrite in a property merge. -/
theorem mergeProp_scalar (c : Option Value) (n : Value)
    (hn1 : n.isList = false) (hn2 : ∀ kvs, n ≠ .map kvs) :
    mergeProp c n = n := by
  cases n with
  | list xs => simp [Value.isList] at hn1
  | map kvs => exact absurd rfl (hn2 kvs)
  | null => rw [mergeProp]
  | bool b => rw [mergeProp]
  | num m => rw [mergeProp]
  | str s => rw [mergeProp]
  | exp e => rw [mergeProp]
  | fmt f => rw [mergeProp]

/-- Two mappings merge recursively in a property merge. -/
theorem mergeProp_map (ckvs nkvs : List (String × Value)) :
    mergeProp (some (.map ckvs)) (.map nkvs) = .map (mergeEntries ckvs nkvs) := by
  rw [mergeProp]

theorem codeAt_some_bounds {code : List Value} {pc : Int} {v : Value}
    (h : codeAt code pc = some v) : 0 ≤ pc ∧ pc < (code.length : Int) := by
  unfold codeAt at h
  by_cases hneg : pc < 0
  · simp [hneg] at h
  · simp only [hneg, if_false] at h
    have hlt : pc.toNat < code.length := by
      by_contra hge
      rw [List.getElem?_eq_none (by omega)] at h
      exact Option.noConfusion h
    omega

theorem codeAt_nonneg (code : List Value) (k : Nat) :
    codeAt code (k : Int) = code[k]? := by
  simp [codeAt]

theorem peek_some_inv {f : StackFrame} {rest : Stack.St} {sl : StackSlice}
    (h : Stack.peek (f :: rest) = some sl) :
    codeAt f.code f.programCounter = some sl.value ∧
      sl.index = f.programCounter ∧ sl.value.falsy = false := by
  have h' : (match codeAt f.code f.programCounter with
      | none => none
      | some v =>
        if v.falsy then none
        else some (⟨f.programCounter, v⟩ : StackSlice)) = some sl := h
  cases hc : codeAt f.code f.programCounter with
  | none => rw [hc] at h'; exact Option.noConfusion h'
  | some v =>
    rw [hc] at h'
    by_cases hf : v.falsy
    · simp [hf] at h'
    · simp only [hf, Bool.false_eq_true, if_false] at h'
      cases h'
      simp_all

/-- The kept-∪-added side of a diff that starts with a kept run reconstructs
the update with the old elements in front. -/
theorem applyUpd_kept_run (pre : List Value) (rest : List DiffChange) :
    applyUpd (pre.map .kept ++ rest) = pre ++ applyUpd rest := by
  induction pre with
  | nil => rfl
  | cons x xs ih => simp [applyUpd, List.filterMap_cons] at ih ⊢; exact ih

theorem applySrc_kept_run (pre : List Value) (rest : List DiffChange) :
    applySrc (pre.map .kept ++ rest) = pre ++ applySrc rest := by
  induction pre with
  | nil => rfl
  | cons x xs ih => simp [applySrc, List.filterMap_cons] at ih ⊢; exact ih

/-! ## Claim theorems -/

/-- A trivial oracle used by concrete witnesses (none of their scripts
evaluate expressions, templates or `eval` bodies). -/
def oracleStub : JsOracle :=
  { renderExpression := fun _ _ => .null,
    renderTemplate := fun _ _ => "",
    runEval := fun sc _ => sc,
    camelCase := fun s => s }

/-- C4 (code bug): `Stack.dump` / `Script.save` are *not* observations.  At
the concrete two-frame stack `[⟨0,[1]⟩, ⟨0,[2]⟩]` (top frame first), `dump`
returns the frames root-first as specified, but reverses the live stack in
place: a second `dump` returns the opposite order, and a `step` after
`save()` pulls the bottom frame's instruction `2` instead of the top frame's
instruction `1`. -/
theorem c4_dump_mutates_stack :
    (Stack.dump [⟨0, [Value.num 1]⟩, ⟨0, [Value.num 2]⟩]).1 =
      [⟨0, [Value.num 2]⟩, ⟨0, [Value.num 1]⟩] ∧
    (Stack.dump (Stack.dump [⟨0, [Value.num 1]⟩, ⟨0, [Value.num 2]⟩]).2).1 ≠
      (Stack.dump [⟨0, [Value.num 1]⟩, ⟨0, [Value.num 2]⟩]).1 ∧
    (Stack.pull
        (Script.save ⟨[], [], [⟨0, [Value.num 1]⟩, ⟨0, [Value.num 2]⟩]⟩).2.stack).map
        (fun r => r.1.value) ≠
      (Stack.pull [⟨0, [Value.num 1]⟩, ⟨0, [Value.num 2]⟩]).map
        (fun r => r.1.value) := by
  decide

/-- C5 counterexample: the claim asserts that `peek` returns the slice for
every in-range instruction, including the falsy JSON primitives; but with
`null` at the in-range counter `0`, `peek` returns nothing. -/
theorem c5_peek_falsy_counterexample :
    Stack.peek [⟨0, [Value.null]⟩] = none ∧
      (0 : Int) ≤ 0 ∧ (0 : Int) < ([Value.null] : List Value).length := by
  decide

/-- C5 (amended): `peek` returns the slice `(pc, code[pc])` whenever the
counter is in range **and the value there is truthy**; on an exhausted top
frame it returns nothing.  `peek` is a pure observation in this model (the
source's decrement-after-pull formulation of older revisions is gone): it
never pops and never moves the counter. -/
theorem c5_peek_in_range (f : StackFrame) (rest : Stack.St) :
    (∀ v, codeAt f.code f.programCounter = some v → v.truthy = true →
      Stack.peek (f :: rest) = some ⟨f.programCounter, v⟩) ∧
    (f.programCounter = f.code.length → Stack.peek (f :: rest) = none) := by
  constructor
  · intro v hv htr
    have hfal : v.falsy = false := by
      simpa [Value.truthy] using htr
    simp only [Stack.peek]
    rw [hv]
    simp [hfal]
  · intro hlen
    have hc : codeAt f.code f.programCounter = none := by
      unfold codeAt
      have : ¬ f.programCounter < 0 := by
        rw [hlen]; omega
      simp only [this, if_false]
      apply List.getElem?_eq_none
      omega
    simp only [Stack.peek]
    rw [hc]

/-- C5 witness. -/
theorem c5_peek_in_range_witness :
    Stack.peek [⟨0, [Value.num 7]⟩] = some ⟨0, Value.num 7⟩ :=
  (c5_peek_in_range ⟨0, [Value.num 7]⟩ []).1 (Value.num 7) (by decide) (by decide)

/-- C6 counterexample: the claim asserts that when the diff marks the
instruction at the counter as kept, the patched counter points at that same
instruction.  With `old = [1,2]`, `pc = 1`, `new = [1,9,2]`, the diff keeps
the instruction `2` at the counter, yet the patched counter stays at `1` and
points at the inserted `9`: a step after the patch pulls `9`, a step without
it pulls `2`. -/
theorem c6_patch_kept_counterexample :
    diffArray [Value.num 1, Value.num 2] [Value.num 1, Value.num 9, Value.num 2] =
      [.kept (.num 1), .added (.num 9), .kept (.num 2)] ∧
    Stack.patch ⟨1, [Value.num 1, Value.num 2]⟩
        [Value.num 1, Value.num 9, Value.num 2] =
      ⟨1, [Value.num 1, Value.num 9, Value.num 2]⟩ ∧
    (Stack.pull [Stack.patch ⟨1, [Value.num 1, Value.num 2]⟩
          [Value.num 1, Value.num 9, Value.num 2]]).map (fun r => r.1.value) ≠
      (Stack.pull [(⟨1, [Value.num 1, Value.num 2]⟩ : StackFrame)]).map
        (fun r => r.1.value) := by
  decide

/-- C6 (amended): patch preservation holds when the edit lies entirely after
the current instruction — the diff starts with at least `pc + 1` kept
changes — in which case the counter is unchanged, it denotes the same
instruction in the new code, and a subsequent step pulls the same value; and
when the diff keeps the first `pc` instructions and then replaces the
current one (`removed` followed by `added`), the counter lands on the first
inserted instruction at that position.  (An insertion directly at the
counter, as in the counterexample, moves execution to the inserted
instructions instead.) -/
theorem c6_patch_preservation :
    (∀ (old new : List Value) (k : Nat) (rest : List DiffChange),
      diffArray old new = (old.take (k + 1)).map .kept ++ rest →
      k < old.length →
      Stack.patch ⟨(k : Int), old⟩ new = ⟨(k : Int), new⟩ ∧
      codeAt new (k : Int) = codeAt old (k : Int) ∧
      (Stack.pull [Stack.patch ⟨(k : Int), old⟩ new]).map (fun r => r.1.value) =
        (Stack.pull [(⟨(k : Int), old⟩ : StackFrame)]).map (fun r => r.1.value)) ∧
    (∀ (old new : List Value) (k : Nat) (w v : Value) (rest : List DiffChange),
      diffArray old new =
        (old.take k).map .kept ++ .removed w :: .added v :: rest →
      Stack.patch ⟨(k : Int), old⟩ new = ⟨(k : Int), new⟩ ∧
      codeAt new (k : Int) = some v) := by
  constructor
  · intro old new k rest hdiff hk
    have htake : (old.take (k + 1)).length = k + 1 := by
      simp [List.length_take]; omega
    have hpc : Stack.patch ⟨(k : Int), old⟩ new = ⟨(k : Int), new⟩ := by
      simp only [Stack.patch, hdiff]
      rw [Stack.patchLoop_kept_run _ _ _ _ (by rw [htake]; push_cast; omega)]
    have hnew : new = old.take (k + 1) ++ applyUpd rest := by
      have := applyUpd_diffArray old new
      rw [hdiff, applyUpd_kept_run] at this
      exact this.symm
    have hcode : codeAt new (k : Int) = codeAt old (k : Int) := by
      rw [codeAt_nonneg, codeAt_nonneg, hnew]
      rw [List.getElem?_append_left (by omega)]
      rw [List.getElem?_take_of_lt (by omega)]
    refine ⟨hpc, hcode, ?_⟩
    rw [hpc]
    simp only [Stack.pull, Stack.peek]
    rw [hcode]
    cases codeAt old (k : Int) with
    | none => rfl
    | some v =>
      by_cases hf : v.falsy
      · simp [hf]
      · simp only [hf, Bool.false_eq_true, if_false]
        cases hl1 : (decide ((k : Int) + 1 = (new.length : Int))) <;>
          cases hl2 : (decide ((k : Int) + 1 = (old.length : Int))) <;>
            simp_all
  · intro old new k w v rest hdiff
    have hsrc : old = old.take k ++ w :: applySrc rest := by
      have := applySrc_diffArray old new
      rw [hdiff, applySrc_kept_run] at this
      simpa [applySrc, List.filterMap_cons] using this.symm
    have htake : (old.take k).length = k := by
      have hlen : old.length = (old.take k).length + 1 + (applySrc rest).length := by
        conv_lhs => rw [hsrc]
        simp
        omega
      simp only [List.length_take]
      simp only [List.length_take] at hlen
      omega
    have hpc : Stack.patch ⟨(k : Int), old⟩ new = ⟨(k : Int), new⟩ := by
      simp only [Stack.patch, hdiff]
      rw [Stack.patchLoop_kept_run _ _ _ _ (by rw [htake]; push_cast; omega)]
    have hnew : new = old.take k ++ v :: applyUpd rest := by
      have := applyUpd_diffArray old new
      rw [hdiff, applyUpd_kept_run] at this
      simpa [applyUpd, List.filterMap_cons] using this.symm
    refine ⟨hpc, ?_⟩
    rw [codeAt_nonneg, hnew]
    rw [List.getElem?_append_right (by omega)]
    simp [htake]

/-- C6 witness: an edit strictly after the counter (`old = [1,2]`,
`new = [1,2,3]`, `pc = 1`) leaves the counter on the same instruction. -/
theorem c6_patch_preservation_witness :
    Stack.patch ⟨1, [Value.num 1, Value.num 2]⟩
        [Value.num 1, Value.num 2, Value.num 3] =
      ⟨1, [Value.num 1, Value.num 2, Value.num 3]⟩ ∧
    codeAt [Value.num 1, Value.num 2, Value.num 3] 1 =
      codeAt [Value.num 1, Value.num 2] 1 :=
  by
    have h := (c6_patch_preservation.1 [Value.num 1, Value.num 2]
      [Value.num 1, Value.num 2, Value.num 3] 1
      [.added (.num 3)] (by decide) (by decide))
    exact ⟨h.1, h.2.1⟩

/-- C7 counterexample: patching the frame `⟨pc = 2, [1,2,3]⟩` with the empty
code drives the counter to `-1`, violating the claimed invariant
`0 ≤ pc ≤ len(code)` and the claimed clamping to the new code length `0`. -/
theorem c7_patch_negative_counterexample :
    (Stack.patch ⟨2, [Value.num 1, Value.num 2, Value.num 3]⟩ []).programCounter
        = -1 ∧
    ¬ (0 : Int) ≤
      (Stack.patch ⟨2, [Value.num 1, Value.num 2, Value.num 3]⟩ []).programCounter := by
  decide

/-- Frame-counter invariant of the claim: every frame satisfies
`0 ≤ pc ≤ len(code)`. -/
def stackInv (st : Stack.St) : Prop :=
  ∀ f ∈ st, 0 ≤ f.programCounter ∧ f.programCounter ≤ (f.code.length : Int)

instance (st : Stack.St) : Decidable (stackInv st) := by
  unfold stackInv
  infer_instance

/-- C7 (amended): `push` and `pull` preserve the counter invariant
`0 ≤ pc ≤ len(code)` (`peek` does not touch the stack at all), the pull that
advances a frame's counter to the code length removes that frame, and
`patch` preserves the **upper** bound — but, as the counterexample shows, it
can drive the counter below zero, so the lower bound is not an invariant of
`patch`. -/
theorem c7_stack_invariant :
    (∀ (code : List Value) (st : Stack.St), stackInv st →
      stackInv (Stack.push code st).2) ∧
    (∀ (st : Stack.St) (sl : StackSlice) (st' : Stack.St), stackInv st →
      Stack.pull st = some (sl, st') → stackInv st') ∧
    (∀ (f : StackFrame) (rest : Stack.St) (sl : StackSlice) (st' : Stack.St),
      Stack.pull (f :: rest) = some (sl, st') →
      (f.programCounter + 1 = (f.code.length : Int) → st' = rest)) ∧
    (∀ (f : StackFrame) (code : List Value), 0 ≤ f.programCounter →
      f.programCounter ≤ (f.code.length : Int) →
      (Stack.patch f code).programCounter ≤ (code.length : Int)) := by
  refine ⟨?_, ?_, ?_, ?_⟩
  · intro code st hinv f hf
    cases hf with
    | head => exact ⟨le_refl 0, by positivity⟩
    | tail _ hm => exact hinv f hm
  · intro st sl st' hinv hpull
    cases st with
    | nil => exact Option.noConfusion hpull
    | cons f rest =>
      simp only [Stack.pull] at hpull
      cases hp : Stack.peek (f :: rest) with
      | none => rw [hp] at hpull; exact Option.noConfusion hpull
      | some slice =>
        rw [hp] at hpull
        obtain ⟨hcode, _, _⟩ := peek_some_inv hp
        obtain ⟨hge, hlt⟩ := codeAt_some_bounds hcode
        by_cases hend : f.programCounter + 1 = (f.code.length : Int)
        · simp only [hend, if_pos] at hpull
          cases hpull
          intro g hg
          exact hinv g (List.mem_cons_of_mem f hg)
        · simp only [if_neg hend] at hpull
          cases hpull
          intro g hg
          cases hg with
          | head => constructor <;> simp <;> omega
          | tail _ hm => exact hinv g (List.mem_cons_of_mem f hm)
  · intro f rest sl st' hpull hend
    simp only [Stack.pull] at hpull
    cases hp : Stack.peek (f :: rest) with
    | none => rw [hp] at hpull; exact Option.noConfusion hpull
    | some slice =>
      rw [hp] at hpull
      simp only [hend, if_pos] at hpull
      cases hpull
      rfl
  · intro f code hge hle
    exact Stack.patch_le f code hle

/-- C7 witness. -/
theorem c7_stack_invariant_witness :
    stackInv (Stack.push [Value.num 5] []).2 ∧
    (Stack.patch ⟨1, [Value.num 1]⟩ []).programCounter ≤ (0 : Int) :=
  ⟨c7_stack_invariant.1 [Value.num 5] [] (by decide),
    by
      have := c7_stack_invariant.2.2.2 ⟨1, [Value.num 1]⟩ [] (by decide) (by decide)
      simpa using this⟩

/-- C8 counterexample: with listeners `[0, 1]` where listener `0`
unsubscribes itself during delivery, `forEach` skips listener `1` — it was
subscribed when `emit` was called, is still subscribed afterwards, yet is
never invoked — so the claim fails. -/
theorem c8_emit_skip_counterexample :
    (Script.emitRun "t" none (fun l => if l = 0 then [0] else []) [0, 1]).1 =
      [(0, "t", none)] ∧
    (Script.emitRun "t" none (fun l => if l = 0 then [0] else []) [0, 1]).2 =
      [1] ∧
    (Script.emitRun "t" none (fun l => if l = 0 then [0] else []) [0, 1]).1 ≠
      [(0, "t", none), (1, "t", none)] := by
  refine ⟨rfl, rfl, by decide⟩

theorem emitLoop_noop (act : Nat → List Nat) (hact : ∀ l, act l = []) :
    ∀ (fuel k : Nat) (subs : List Nat), fuel + k = subs.length →
      emitLoop act fuel k subs = (subs.drop k, subs) := by
  intro fuel
  induction fuel with
  | zero =>
    intro k subs hlen
    rw [emitLoop]
    rw [List.drop_of_length_le (by omega)]
  | succ fuel ih =>
    intro k subs hlen
    have hk : k < subs.length := by omega
    rw [emitLoop]
    rw [List.getElem?_eq_getElem hk]
    simp only [applyUnsubs, hact, List.foldl_nil]
    rw [ih (k + 1) subs (by omega)]
    rw [List.drop_eq_getElem_cons hk]

/-- C8 (amended): delivery is `forEach` over the live subscriber array with
the length read once.  When no listener unsubscribes during the delivery,
every listener subscribed at the moment `emit` is called is invoked exactly
once, in registration order, with the event `{type, data}`, and the
subscriber list is unchanged.  An unsubscription performed during delivery
removes the listener from subsequent emits, but — as the counterexample
shows — removing a listener at or before the current position shifts the
array and makes `forEach` skip the next still-subscribed listener in the
current call. -/
theorem c8_emit_delivery (ty : String) (da : Option Value) (subs : List Nat)
    (act : Nat → List Nat) (hact : ∀ l, act l = []) :
    Script.emitRun ty da act subs = (subs.map fun l => (l, ty, da), subs) := by
  unfold Script.emitRun
  rw [emitLoop_noop act hact subs.length 0 subs (by omega)]
  simp

/-- C8 witness. -/
theorem c8_emit_delivery_witness :
    Script.emitRun "t" (some (Value.num 4)) (fun _ => []) [3, 5] =
      ([(3, "t", some (Value.num 4)), (5, "t", some (Value.num 4))], [3, 5]) :=
  c8_emit_delivery "t" (some (Value.num 4)) [3, 5] (fun _ => []) (fun _ => rfl)

/-- C10: when the reserved `yield` variable holds `true`, `Scene.step` is a
complete no-op: the whole script state — stack, scope (hence scene state and
menu) — is returned unchanged, no instruction is pulled and no event is
emitted.  (Stepping resumes once `yield` is falsy again, which `next()` and
an explicit `setVar` arrange.) -/
theorem c10_yield_noop (O : JsOracle) (s : Script)
    (h : s.scope.lookup "yield" = some (.bool true)) :
    Scene.step O s = ⟨s, [], none⟩ := by
  unfold Scene.step
  rw [h]
  simp [truthyOpt, Value.truthy, Value.falsy]

/-- C10 witness: a freshly constructed scene starts with `yield = true`, and
stepping it changes nothing. -/
theorem c10_yield_noop_witness :
    Scene.step oracleStub (Scene.init [Value.map [("label", Value.str "x")]]) =
      ⟨Scene.init [Value.map [("label", Value.str "x")]], [], none⟩ :=
  c10_yield_noop oracleStub (Scene.init [Value.map [("label", Value.str "x")]])
    (by decide)

theorem exec_no_events (O : JsOracle) (s : Script) (node : Value)
    (h : ∀ a, unpack node ≠ some ("emit", a)) :
    (Script.exec O s node).events = [] := by
  unfold Script.exec
  cases hu : unpack node with
  | none => rfl
  | some p =>
    obtain ⟨t, args⟩ := p
    have hne : t ≠ "emit" := fun ht => h args (by rw [hu, ht])
    dsimp only
    split_ifs <;>
      first
        | exact absurd (by assumption) hne
        | ((repeat' split) <;> rfl)

/-- C3 counterexample: on the script `[{label:"l"}]` the single `step()`
succeeds, yet **no** event is delivered — in particular not the single
`{type:'step'}` event the claim requires. -/
theorem c3_no_step_event_counterexample :
    (Script.step oracleStub
        ⟨[Value.map [("label", Value.str "l")]], [],
          [⟨0, [Value.map [("label", Value.str "l")]]⟩]⟩).error = none ∧
    (Script.step oracleStub
        ⟨[Value.map [("label", Value.str "l")]], [],
          [⟨0, [Value.map [("label", Value.str "l")]]⟩]⟩).events = [] ∧
    (Script.step oracleStub
        ⟨[Value.map [("label", Value.str "l")]], [],
          [⟨0, [Value.map [("label", Value.str "l")]]⟩]⟩).events ≠
      [⟨"step", none⟩] := by
  refine ⟨rfl, rfl, by decide⟩

/-- C3 (amended): the current `Script.step` contains no `emit('step')`: a
step — successful or failing — delivers no events at all unless the executed
command is itself an explicit `emit`.  In particular no `{type:'step'}`
event is ever emitted by stepping, and N successful steps emit 0 events, not
N. -/
theorem c3_step_emits_no_events (O : JsOracle) (s : Script) (sl : StackSlice)
    (st' : Stack.St) (hpull : Stack.pull s.stack = some (sl, st'))
    (hcmd : ∀ a, unpack sl.value ≠ some ("emit", a)) :
    (Script.step O s).events = [] := by
  unfold Script.step Script.stepCore
  rw [hpull]
  have hev := exec_no_events O { s with stack := st' } sl.value hcmd
  cases herr : (Script.exec O { s with stack := st' } sl.value).error <;>
    simp [hev, herr]

/-- C3 witness: a successful `set` step emits nothing. -/
theorem c3_step_emits_no_events_witness :
    (Script.step oracleStub
        ⟨[Value.map [("set", Value.map [("name", Value.str "a"),
            ("value", Value.num 1)])]], [],
          [⟨0, [Value.map [("set", Value.map [("name", Value.str "a"),
            ("value", Value.num 1)])]]⟩]⟩).events = [] :=
  c3_step_emits_no_events oracleStub _
    ⟨0, Value.map [("set", Value.map [("name", Value.str "a"),
      ("value", Value.num 1)])]⟩ [] rfl
    (by intro a h; simp [unpack] at h)

/-- C2 counterexample: against the claim, a raising `load` can mutate the
state.  Loading the save `"{}"` into a script with a non-empty scope and
stack raises the advertised script error, yet afterwards the scope is empty
and the stack cleared: the destructured `stack` field is `undefined`, which
only fails *after* `this.scope` and `this.stack` have been replaced. -/
theorem c2_load_mutates_counterexample :
    (Script.load ⟨[Value.num 1], [("a", Value.num 1)], [⟨0, [Value.num 1]⟩]⟩
        (Value.map [])).2 = some loadErrorMessage ∧
    (Script.load ⟨[Value.num 1], [("a", Value.num 1)], [⟨0, [Value.num 1]⟩]⟩
        (Value.map [])).1.scope = [] ∧
    (Script.load ⟨[Value.num 1], [("a", Value.num 1)], [⟨0, [Value.num 1]⟩]⟩
        (Value.map [])).1 ≠
      (⟨[Value.num 1], [("a", Value.num 1)], [⟨0, [Value.num 1]⟩]⟩ : Script) := by
  refine ⟨rfl, rfl, by decide⟩

/-- C2 (amended): every failing `load` raises exactly the script error
`"Error loading save - it may be broken or unsupported."`, and a failure
inside `serializer.parse` (before any mutation) leaves the script state
untouched; but — per the counterexample — a failure after parsing (a
missing, non-iterable or structurally broken `stack` field) leaves the
replaced scope and the partially rebuilt stack behind, so `load` is not
transactional. -/
theorem c2_load_error_behaviour :
    (∀ (s : Script) (input : Value) (msg : String), revive input = .error msg →
      Script.load s input = (s, some loadErrorMessage)) ∧
    (∀ (s : Script) (input : Value),
      (Script.load s input).2 = none ∨
        (Script.load s input).2 = some loadErrorMessage) := by
  constructor
  · intro s input msg h
    unfold Script.load
    rw [h]
  · intro s input
    unfold Script.load
    cases hr : revive input with
    | error m => simp
    | ok v =>
      by_cases hn : v = .null
      · simp [hn]
      · simp only [if_neg hn]
        split
        · cases (loadFrames s.source _ []).2 <;> simp
        · cases (loadFrames s.source _ []).2 <;> simp
        · simp

/-- C2 witness: a parse-stage failure (unknown `__class` tag) leaves the
state untouched and raises the exact message. -/
theorem c2_load_error_behaviour_witness :
    Script.load ⟨[], [("a", Value.num 1)], []⟩
        (Value.map [("__class", Value.str "Nope")]) =
      (⟨[], [("a", Value.num 1)], []⟩, some loadErrorMessage) :=
  c2_load_error_behaviour.1 ⟨[], [("a", Value.num 1)], []⟩
    (Value.map [("__class", Value.str "Nope")]) "Unknown serializable entity" rfl

theorem lookup_all_keys {kvs : List (String × Value)} {allowed : List String}
    (h : (kvs.all fun kv => kv.1 ∈ allowed) = true) {k : String} {v : Value}
    (hl : kvs.lookup k = some v) : k ∈ allowed := by
  have hmem := mem_of_lookup_eq_some hl
  have := List.all_eq_true.mp h _ hmem
  simpa using this

/-- Valid page arguments overwrite at every key other than `background` and
`loop` (strings and the sprites array are not recursively merged). -/
theorem pageArgs_simple_overwrite {ukvs : List (String × Value)}
    (hvalid : pageArgsValid (.map ukvs) = true) :
    ∀ (k : String) (nv : Value) (c : Option Value), k ≠ "background" →
      k ≠ "loop" → ukvs.lookup k = some nv → mergeProp c nv = nv := by
  intro k nv c hkb hkl hl
  have hv := hvalid
  simp only [pageArgsValid, Bool.and_eq_true] at hv
  obtain ⟨⟨⟨⟨⟨hkeys, hname⟩, htext⟩, _⟩, hsp⟩, _⟩ := hv
  have hk := lookup_all_keys hkeys hl
  simp only [List.mem_cons, List.not_mem_nil, or_false] at hk
  rcases hk with hk | hk | hk | hk | hk
  · subst hk
    rw [hl] at hname
    cases nv <;> simp [isOptStr] at hname <;> rw [mergeProp]
  · subst hk
    rw [hl] at htext
    cases nv <;> simp [isOptStr] at htext <;> rw [mergeProp]
  · exact absurd hk hkb
  · subst hk
    rw [hl] at hsp
    cases nv <;> simp at hsp <;> rw [mergeProp]
  · exact absurd hk hkl

/-- Valid deep-partial background fields are scalars, so they overwrite. -/
theorem backgroundPartial_overwrite {bkvs : List (String × Value)}
    (h : backgroundPartialValid (.map bkvs) = true) :
    ∀ (k : String) (nv : Value) (c : Option Value), bkvs.lookup k = some nv →
      mergeProp c nv = nv := by
  intro k nv c hl
  have hv := h
  simp only [backgroundPartialValid, Bool.and_eq_true] at hv
  obtain ⟨⟨⟨hkeys, himg⟩, hpos⟩, hcol⟩ := hv
  have hk := lookup_all_keys hkeys hl
  simp only [List.mem_cons, List.not_mem_nil, or_false] at hk
  rcases hk with hk | hk | hk
  · subst hk
    rw [hl] at himg
    cases nv <;> simp at himg <;> rw [mergeProp]
  · subst hk
    rw [hl] at hpos
    cases nv <;> simp [isOptStr] at hpos <;> rw [mergeProp]
  · subst hk
    rw [hl] at hcol
    cases nv <;> simp [isOptStr] at hcol <;> rw [mergeProp]

/-- The yield flag the `page` command computes: true unless the next queued
instruction unpacks to a `menu` command. -/
def pageYield (st : Stack.St) : Bool :=
  match Stack.peek st with
  | none => true
  | some sl =>
    match unpack sl.value with
    | some p => p.1 ≠ "menu"
    | none => true

/-- C9: executing a `page` command with valid (expression-free) deep-partial
state arguments merges them into the `state` scope variable with the claimed
semantics and sets the reserved `yield` flag, which ends up `false` exactly
when the next queued instruction is a `menu` command (`pageYield`).  The
merge reads back as: every field other than `background`/`loop` is
overwritten when present in the update and untouched otherwise (strings
overwrite, the sprites list is replaced wholesale), a background mapping
merges recursively field by field, and an explicit `loop: null` overwrites.
The hypotheses ask that the scope's `state` is a mapping, the update's keys
are not duplicated (JavaScript objects cannot carry duplicates) and that the
next queued instruction, if any, is a well-formed command (otherwise the
command raises while computing the flag). -/
theorem c9_page_semantics (O : JsOracle) (s : Script)
    (stkvs ukvs : List (String × Value)) (out : ExecOut)
    (hstate : s.scope.lookup "state" = some (.map stkvs))
    (hpure : pureVal (.map ukvs) = true)
    (hvalid : pageArgsValid (.map ukvs) = true)
    (hnodup : (ukvs.map Prod.fst).Nodup)
    (hnext : ∀ sl, Stack.peek s.stack = some sl → (unpack sl.value).isSome)
    (hout : Scene.exec O s (.map [("page", .map ukvs)]) = out) :
    out.error = none ∧
    out.events = [] ∧
    out.state.stack = s.stack ∧
    out.state.source = s.source ∧
    out.state.scope.lookup "yield" = some (.bool (pageYield s.stack)) ∧
    out.state.scope.lookup "state" = some (.map (mergeEntries stkvs ukvs)) ∧
    (∀ k, k ≠ "background" → k ≠ "loop" →
      (mergeEntries stkvs ukvs).lookup k =
        ((ukvs.lookup k).orElse fun _ => stkvs.lookup k)) ∧
    (∀ bkvs cbkvs, ukvs.lookup "background" = some (.map bkvs) →
      stkvs.lookup "background" = some (.map cbkvs) →
      (bkvs.map Prod.fst).Nodup →
      (mergeEntries stkvs ukvs).lookup "background" =
          some (.map (mergeEntries cbkvs bkvs)) ∧
        ∀ k', (mergeEntries cbkvs bkvs).lookup k' =
          ((bkvs.lookup k').orElse fun _ => cbkvs.lookup k')) ∧
    (ukvs.lookup "loop" = some .null →
      (mergeEntries stkvs ukvs).lookup "loop" = some .null) := by
  have hexec : out =
      ⟨{ s with scope := (mapSet (mapSet s.scope "yield"
          (.bool (pageYield s.stack))) "state"
          (.map (mergeEntries stkvs ukvs))) }, [], none⟩ := by
    rw [← hout]
    unfold Scene.exec
    have hup0 : unpack (.map [("page", .map ukvs)]) = some ("page", .map ukvs) :=
      rfl
    rw [hup0]
    dsimp only
    rw [if_pos rfl, evalNode_pure O s.scope _ hpure, if_pos hvalid]
    have hflag : (match Stack.peek s.stack with
        | none => (.ok true : Except String Bool)
        | some slice =>
          match unpack slice.value with
          | none => .error "Invalid command"
          | some (nt, _) => .ok (nt ≠ "menu")) =
        .ok (pageYield s.stack) := by
      cases hpk : Stack.peek s.stack with
      | none => simp [pageYield, hpk]
      | some sl =>
        have := hnext sl hpk
        cases hup : unpack sl.value with
        | none => rw [hup] at this; simp at this
        | some p =>
          obtain ⟨nt, na⟩ := p
          simp [pageYield, hpk, hup]
    rw [hflag]
    dsimp only
    unfold Scene.setState
    rw [if_pos hvalid]
    have hlstate : (mapSet s.scope "yield"
        (.bool (pageYield s.stack))).lookup "state" = some (.map stkvs) := by
      rw [lookup_mapSet_ne _ _ _ _ (by decide)]
      exact hstate
    rw [hlstate]
    rfl
  subst hexec
  refine ⟨rfl, rfl, rfl, rfl, ?_, ?_, ?_, ?_, ?_⟩
  · rw [lookup_mapSet_ne _ _ _ _ (by decide), lookup_mapSet_self]
  · rw [lookup_mapSet_self]
  · intro k hkb hkl
    rw [mergeEntries_lookup ukvs stkvs hnodup k]
    cases hl : ukvs.lookup k with
    | none => rfl
    | some nv =>
      dsimp only
      rw [pageArgs_simple_overwrite hvalid k nv _ hkb hkl hl]
      rfl
  · intro bkvs cbkvs hub hsb hbnodup
    constructor
    · rw [mergeEntries_lookup ukvs stkvs hnodup "background", hub, hsb]
      dsimp only
      rw [mergeProp_map]
    · intro k'
      rw [mergeEntries_lookup bkvs cbkvs hbnodup k']
      have hbvalid : backgroundPartialValid (.map bkvs) = true := by
        have hv := hvalid
        simp only [pageArgsValid, Bool.and_eq_true] at hv
        obtain ⟨⟨⟨⟨⟨_, _⟩, _⟩, hbg⟩, _⟩, _⟩ := hv
        rw [hub] at hbg
        exact hbg
      cases hl : bkvs.lookup k' with
      | none => rfl
      | some nv =>
        dsimp only
        rw [backgroundPartial_overwrite hbvalid k' nv _ hl]
        rfl
  · intro hul
    rw [mergeEntries_lookup ukvs stkvs hnodup "loop", hul]
    dsimp only
    rw [mergeProp]

/-- C9 witness: a concrete page update over a concrete state, with a `menu`
command queued next (so the computed yield flag is `false`): the name
scalar overwrites, the background mapping merges recursively (its untouched
`color` field survives, its `image` field is overwritten), and `loop: null`
overwrites. -/
theorem c9_page_semantics_witness :
    (Scene.exec oracleStub
        ⟨[], [("state", .map [("name", Value.str "Old"),
            ("background", .map [("image", Value.str "a"),
              ("color", Value.str "black")])])],
          [⟨0, [Value.map [("menu", Value.map [("A", Value.list [])])]]⟩]⟩
        (.map [("page", .map [("name", Value.str "New"),
          ("background", .map [("image", Value.str "b")]),
          ("loop", Value.null)])])).error = none ∧
    (Scene.exec oracleStub
        ⟨[], [("state", .map [("name", Value.str "Old"),
            ("background", .map [("image", Value.str "a"),
              ("color", Value.str "black")])])],
          [⟨0, [Value.map [("menu", Value.map [("A", Value.list [])])]]⟩]⟩
        (.map [("page", .map [("name", Value.str "New"),
          ("background", .map [("image", Value.str "b")]),
          ("loop", Value.null)])])).events = [] ∧
    (Scene.exec oracleStub
        ⟨[], [("state", .map [("name", Value.str "Old"),
            ("background", .map [("image", Value.str "a"),
              ("color", Value.str "black")])])],
          [⟨0, [Value.map [("menu", Value.map [("A", Value.list [])])]]⟩]⟩
        (.map [("page", .map [("name", Value.str "New"),
          ("background", .map [("image", Value.str "b")]),
          ("loop", Value.null)])])).state.scope.lookup "yield" =
      some (.bool false) ∧
    (Scene.exec oracleStub
        ⟨[], [("state", .map [("name", Value.str "Old"),
            ("background", .map [("image", Value.str "a"),
              ("color", Value.str "black")])])],
          [⟨0, [Value.map [("menu", Value.map [("A", Value.list [])])]]⟩]⟩
        (.map [("page", .map [("name", Value.str "New"),
          ("background", .map [("image", Value.str "b")]),
          ("loop", Value.null)])])).state.scope.lookup "state" =
      some (.map (mergeEntries
        [("name", Value.str "Old"),
          ("background", .map [("image", Value.str "a"),
            ("color", Value.str "black")])]
        [("name", Value.str "New"),
          ("background", .map [("image", Value.str "b")]),
          ("loop", Value.null)])) ∧
    (mergeEntries
        [("name", Value.str "Old"),
          ("background", .map [("image", Value.str "a"),
            ("color", Value.str "black")])]
        [("name", Value.str "New"),
          ("background", .map [("image", Value.str "b")]),
          ("loop", Value.null)]).lookup "name" = some (Value.str "New") ∧
    (mergeEntries
        [("name", Value.str "Old"),
          ("background", .map [("image", Value.str "a"),
            ("color", Value.str "black")])]
        [("name", Value.str "New"),
          ("background", .map [("image", Value.str "b")]),
          ("loop", Value.null)]).lookup "background" =
      some (.map (mergeEntries
        [("image", Value.str "a"), ("color", Value.str "black")]
        [("image", Value.str "b")])) ∧
    (mergeEntries
        [("image", Value.str "a"), ("color", Value.str "black")]
        [("image", Value.str "b")]).lookup "color" =
      some (Value.str "black") ∧
    (mergeEntries
        [("image", Value.str "a"), ("color", Value.str "black")]
        [("image", Value.str "b")]).lookup "image" = some (Value.str "b") ∧
    (mergeEntries
        [("name", Value.str "Old"),
          ("background", .map [("image", Value.str "a"),
            ("color", Value.str "black")])]
        [("name", Value.str "New"),
          ("background", .map [("image", Value.str "b")]),
          ("loop", Value.null)]).lookup "loop" = some Value.null := by
  have h := c9_page_semantics oracleStub
    ⟨[], [("state", .map [("name", Value.str "Old"),
        ("background", .map [("image", Value.str "a"),
          ("color", Value.str "black")])])],
      [⟨0, [Value.map [("menu", Value.map [("A", Value.list [])])]]⟩]⟩
    [("name", Value.str "Old"),
      ("background", .map [("image", Value.str "a"),
        ("color", Value.str "black")])]
    [("name", Value.str "New"),
      ("background", .map [("image", Value.str "b")]),
      ("loop", Value.null)]
    (Scene.exec oracleStub
      ⟨[], [("state", .map [("name", Value.str "Old"),
          ("background", .map [("image", Value.str "a"),
            ("color", Value.str "black")])])],
        [⟨0, [Value.map [("menu", Value.map [("A", Value.list [])])]]⟩]⟩
      (.map [("page", .map [("name", Value.str "New"),
        ("background", .map [("image", Value.str "b")]),
        ("loop", Value.null)])]))
    (by decide) (by decide) (by decide) (by decide)
    (by
      intro sl hpk
      have hpk2 : some (⟨0,
          Value.map [("menu", Value.map [("A", Value.list [])])]⟩ :
          StackSlice) = some sl := hpk
      injection hpk2 with h2
      rw [← h2]
      decide)
    rfl
  have hbg := h.2.2.2.2.2.2.2.1
    [("image", Value.str "b")]
    [("image", Value.str "a"), ("color", Value.str "black")]
    (by decide) (by decide) (by decide)
  refine ⟨h.1, h.2.1, h.2.2.2.2.1,
    h.2.2.2.2.2.1,
    (h.2.2.2.2.2.2.1 "name" (by decide) (by decide)).trans (by decide),
    hbg.1,
    (hbg.2 "color").trans (by decide),
    (hbg.2 "image").trans (by decide),
    h.2.2.2.2.2.2.2.2 (by decide)⟩

/-- A frame code that `save` can track: `Script.path` finds a path for it,
and resolving that (parseInt-converted) path in the source yields the code
back.  This is what `load` relies on to rebuild the frame. -/
def frameTracked (src : List Value) (code : List Value) : Bool :=
  match findPath src (.list code) with
  | some p => nodeAt src p == some (.list code)
  | none => false

theorem decodeSeg_encode (sg : Seg) : decodeSeg (segToValue sg) = some sg := by
  cases sg <;> rfl

theorem mapM_decodeSeg_encode (p : List Seg) :
    (p.map segToValue).mapM decodeSeg = some p := by
  induction p with
  | nil => rfl
  | cons sg rest ih =>
    rw [List.map_cons, List.mapM_cons, decodeSeg_encode, ih]
    rfl

theorem decodeSegs_encode (p : List Seg) :
    decodeSegs (.list (p.map segToValue)) = some p :=
  mapM_decodeSeg_encode p

/-- Loading the saved form of a tracked frame rebuilds exactly that frame
(the stored counter is restored and the patch against the identical current
code is the identity). -/
theorem loadEntry_frameEntry (src : List Value) (st : Stack.St)
    (f : StackFrame) (h : frameTracked src f.code = true) :
    loadEntry src st (frameEntry src f) = .ok (f :: st) := by
  unfold frameTracked at h
  cases hf : findPath src (.list f.code) with
  | none => rw [hf] at h; simp at h
  | some p =>
    rw [hf] at h
    have hnode : nodeAt src p = some (.list f.code) := by simpa using h
    have e1 : frameEntry src f = Value.map
        (("path", Value.list (p.map segToValue)) ::
          [("programCounter", .num f.programCounter),
            ("code", .list f.code)]) := by
      unfold frameEntry
      rw [hf]
      rfl
    rw [e1]
    simp [loadEntry, Value.getKey, List.lookup, Value.falsy, decodeSegs_encode,
      hnode, Stack.patch_self]

/-- The frame-restoration loop of `load` over the saved forms of tracked
frames rebuilds them in order, pushing each on top of the previous ones. -/
theorem loadFrames_frameEntry (src : List Value) :
    ∀ (frames : List StackFrame) (st : Stack.St),
      (∀ f ∈ frames, frameTracked src f.code = true) →
      loadFrames src (frames.map (frameEntry src)) st =
        (frames.reverse ++ st, none) := by
  intro frames
  induction frames with
  | nil => intro st _; simp [loadFrames]
  | cons f rest ih =>
    intro st hall
    rw [List.map_cons, loadFrames, loadEntry_frameEntry src st f
      (hall f (by simp))]
    dsimp only
    rw [ih (f :: st) (fun g hg => hall g (by simp [hg]))]
    simp

/-- C1: the save/load round trip restores the state exactly and raises no
error, provided (a) every frame's code is *tracked*: `Script.path` locates
it in the source and resolving the stored path yields it back (true for the
root frame and for reachable block frames, whose codes are shared subtrees
of the source), and (b) the serializer round trip is faithful on the save
tree (no plain scope mapping carries a `__class` key, see the
counterexample).  The states compared are the state *after* `save` returns:
`save` itself reverses the live stack in place (the C4 bug), but `load`
rebuilds the stack from the dumped order, so the round trip still lands on
the pre-save state. -/
theorem c1_save_load_roundtrip (s : Script)
    (hframes : ∀ f ∈ s.stack, frameTracked s.source f.code = true)
    (hclass : revive (serialize (Script.saveRaw s).1) =
      .ok (Script.saveRaw s).1) :
    Script.load (Script.save s).2 (Script.save s).1 = (s, none) := by
  have hsave1 : (Script.save s).1 = serialize (Value.map
      [("scope", .map s.scope),
        ("stack", .list (s.stack.reverse.map (frameEntry s.source)))]) := rfl
  have hsave2 : (Script.save s).2 = { s with stack := s.stack.reverse } := rfl
  rw [hsave1, hsave2]
  unfold Script.load
  have hrev : revive (serialize (Value.map
      [("scope", .map s.scope),
        ("stack", .list (s.stack.reverse.map (frameEntry s.source)))])) =
      .ok (Value.map
        [("scope", .map s.scope),
          ("stack", .list (s.stack.reverse.map (frameEntry s.source)))]) :=
    hclass
  rw [hrev]
  dsimp only
  rw [if_neg (fun hh => Value.noConfusion hh)]
  have hscope : (Value.map
      [("scope", Value.map s.scope),
        ("stack", Value.list (s.stack.reverse.map
          (frameEntry s.source)))]).getKey "scope" =
      some (Value.map s.scope) := rfl
  have hstack : (Value.map
      [("scope", Value.map s.scope),
        ("stack", Value.list (s.stack.reverse.map
          (frameEntry s.source)))]).getKey "stack" =
      some (Value.list (s.stack.reverse.map (frameEntry s.source))) := rfl
  rw [hscope]
  dsimp only
  rw [hstack]
  dsimp only
  rw [loadFrames_frameEntry s.source s.stack.reverse []
    (fun f hf => hframes f (by simpa using hf))]
  simp

/-- C1 witness: a concrete round trip through `save`/`load` that restores
the state exactly, with both hypotheses checked concretely. -/
theorem c1_save_load_roundtrip_witness :
    Script.load
        (Script.save ⟨[Value.str "a"], [("x", Value.num 1)],
          [⟨0, [Value.str "a"]⟩]⟩).2
        (Script.save ⟨[Value.str "a"], [("x", Value.num 1)],
          [⟨0, [Value.str "a"]⟩]⟩).1 =
      (⟨[Value.str "a"], [("x", Value.num 1)], [⟨0, [Value.str "a"]⟩]⟩, none) :=
  c1_save_load_roundtrip
    ⟨[Value.str "a"], [("x", Value.num 1)], [⟨0, [Value.str "a"]⟩]⟩
    (by decide) rfl

/-- C1 counterexample: the round trip is NOT the identity on every reachable
state.  A scope variable holding a plain mapping with a `"__class"` key
(reachable with a single `set` command) is serialized verbatim, and `load`'s
parser revives it into a `ScriptExp` container: the load raises no error yet
the loaded scope differs from the saved one. -/
theorem c1_roundtrip_counterexample :
    (Script.load
        (Script.save ⟨[], [("x", Value.map [("__class", Value.str "ScriptExp"),
          ("exp", Value.str "0")])], [⟨0, []⟩]⟩).2
        (Script.save ⟨[], [("x", Value.map [("__class", Value.str "ScriptExp"),
          ("exp", Value.str "0")])], [⟨0, []⟩]⟩).1).2 = none ∧
    (Script.load
        (Script.save ⟨[], [("x", Value.map [("__class", Value.str "ScriptExp"),
          ("exp", Value.str "0")])], [⟨0, []⟩]⟩).2
        (Script.save ⟨[], [("x", Value.map [("__class", Value.str "ScriptExp"),
          ("exp", Value.str "0")])], [⟨0, []⟩]⟩).1).1.scope =
      [("x", Value.exp "0")] ∧
    (Script.load
        (Script.save ⟨[], [("x", Value.map [("__class", Value.str "ScriptExp"),
          ("exp", Value.str "0")])], [⟨0, []⟩]⟩).2
        (Script.save ⟨[], [("x", Value.map [("__class", Value.str "ScriptExp"),
          ("exp", Value.str "0")])], [⟨0, []⟩]⟩).1).1 ≠
      ⟨[], [("x", Value.map [("__class", Value.str "ScriptExp"),
        ("exp", Value.str "0")])], [⟨0, []⟩]⟩ := by
  decide

end SealedAway
